import Mathlib

/-!
Verification of the Agentless Hub polling and time-series layer
(`app/main.py`), as a shallow embedding in Lean 4.

The embedding models:
  - JSON values (`Json`), together with executable models of Python's
    `json.dumps` (`jsonEncode`) and `json.loads` (`jsonParse`).  Numbers
    are modelled as integers; strings are escaped only for the quote and
    backslash characters (Python additionally escapes control and
    non-ASCII characters, which is immaterial to every property below).
  - Python coercion semantics used by the poller: `float(...)` /
    `int(...)` applied to decoded JSON values, truthiness, `dict.get`,
    and `str(...)`.
  - the SQLite store (`Store`): `hosts`, `samples`, `disks`, `extras`
    tables as lists of row structures, appended in insertion order.
  - host registration (`registerHost`, the `INSERT OR IGNORE` in
    `AgentlessPoller.__init__`), the per-cycle pipeline
    (`collectLinux`, `commitCycle`, `poll_once`), the tenacity retry
    wrapper of `SSHClient.run` / `WinRMClient.run_ps` (`retryFixed`),
    and the read-only queries `api_series` and `api_latest`.
-/

namespace Agentless

/-! ## JSON values -/

/-- A decoded JSON value (the result of Python's `json.loads`).  Objects are
modelled as association lists in textual order; numbers as integers. -/
inductive Json where
  | null : Json
  | bool (b : Bool) : Json
  | num (n : Int) : Json
  | str (s : String) : Json
  | arr (xs : List Json) : Json
  | obj (kvs : List (String × Json)) : Json
deriving Repr, Inhabited

/-! ## Character helpers for the JSON codec -/

/-- The double-quote character. -/
def qc : Char := Char.ofNat 34

/-- The backslash character. -/
def bsl : Char := Char.ofNat 92

/-- The opening curly bracket. -/
def lcur : Char := Char.ofNat 123

/-- The closing curly bracket. -/
def rcur : Char := Char.ofNat 125

/-- JSON whitespace (space, tab, newline, carriage return). -/
def isWs (c : Char) : Bool :=
  c.toNat = 32 || c.toNat = 9 || c.toNat = 10 || c.toNat = 13

/-- Drop leading whitespace. -/
def skipWs : List Char → List Char
  | [] => []
  | c :: cs => if isWs c then skipWs cs else c :: cs

/-- The decimal digit character for `d < 10`. -/
def digitChar (d : Nat) : Char := Char.ofNat (48 + d)

/-- Decimal digit test. -/
def isDigitC (c : Char) : Bool := 48 ≤ c.toNat && c.toNat ≤ 57

/-- Value of a decimal digit character. -/
def digitVal (c : Char) : Nat := c.toNat - 48

/-- Decimal printing of a natural number, most significant digit first,
prepended to `acc`. -/
def encodeNatAux (n : Nat) (acc : List Char) : List Char :=
  if n < 10 then digitChar n :: acc
  else encodeNatAux (n / 10) (digitChar (n % 10) :: acc)
termination_by n
decreasing_by exact Nat.div_lt_self (by omega) (by omega)

/-- Decimal printing of a natural number. -/
def encodeNat (n : Nat) : List Char := encodeNatAux n []

/-- Decimal printing of an integer (minus sign for negatives). -/
def encodeInt (n : Int) : List Char :=
  if n < 0 then '-' :: encodeNat n.natAbs else encodeNat n.toNat

/-- Greedily consume decimal digits, accumulating their value. -/
def parseDigits : List Char → Nat → Nat × List Char
  | [], acc => (acc, [])
  | c :: cs, acc =>
    if isDigitC c then parseDigits cs (acc * 10 + digitVal c) else (acc, c :: cs)

/-- Read a natural number token (at least one digit). -/
def parseNatTok : List Char → Option (Nat × List Char)
  | [] => none
  | c :: cs => if isDigitC c then some (parseDigits cs (digitVal c)) else none

/-- Read an integer token (optional minus sign, then digits). -/
def parseIntTok : List Char → Option (Int × List Char)
  | [] => none
  | c :: cs =>
    if c = '-' then
      match parseNatTok cs with
      | some (m, r) => some (-(m : Int), r)
      | none => none
    else
      match parseNatTok (c :: cs) with
      | some (m, r) => some ((m : Int), r)
      | none => none

/-- Escape a string body: quote and backslash are backslash-escaped, every
other character is emitted verbatim. -/
def escapeList : List Char → List Char
  | [] => []
  | c :: cs =>
    if c = qc ∨ c = bsl then bsl :: c :: escapeList cs else c :: escapeList cs

/-- Encode a JSON string literal, quotes included. -/
def encodeStr (s : String) : List Char := qc :: (escapeList s.toList ++ [qc])

/-- Read a string body up to the closing quote; a backslash makes the next
character literal.  Returns the body and the input after the quote. -/
def parseStrBody : List Char → Option (List Char × List Char)
  | [] => none
  | c :: cs =>
    if c = qc then some ([], cs)
    else if c = bsl then
      match cs with
      | [] => none
      | d :: ds =>
        match parseStrBody ds with
        | some (s, r) => some (d :: s, r)
        | none => none
    else
      match parseStrBody cs with
      | some (s, r) => some (c :: s, r)
      | none => none

mutual

/-- Model of `json.dumps` (default separators), producing a character list. -/
def encodeJ : Json → List Char
  | .null => 'n' :: 'u' :: 'l' :: 'l' :: []
  | .bool true => 't' :: 'r' :: 'u' :: 'e' :: []
  | .bool false => 'f' :: 'a' :: 'l' :: 's' :: 'e' :: []
  | .num n => encodeInt n
  | .str s => encodeStr s
  | .arr [] => '[' :: ']' :: []
  | .arr (x :: xs) => '[' :: (encodeElems x xs ++ [']'])
  | .obj [] => lcur :: rcur :: []
  | .obj ((k, v) :: ms) => lcur :: (encodeMembs k v ms ++ [rcur])
termination_by v => sizeOf v
decreasing_by all_goals (simp_wf <;> omega)

/-- Encode a nonempty array body, `", "`-separated. -/
def encodeElems (x : Json) (xs : List Json) : List Char :=
  match xs with
  | [] => encodeJ x
  | y :: ys => encodeJ x ++ ',' :: ' ' :: encodeElems y ys
termination_by 1 + sizeOf x + sizeOf xs
decreasing_by all_goals (simp_wf <;> omega)

/-- Encode a nonempty object body, `": "` after keys, `", "` between members. -/
def encodeMembs (k : String) (v : Json) (ms : List (String × Json)) : List Char :=
  match ms with
  | [] => encodeStr k ++ ':' :: ' ' :: encodeJ v
  | (k', v') :: ms' =>
      encodeStr k ++ ':' :: ' ' :: (encodeJ v ++ ',' :: ' ' :: encodeMembs k' v' ms')
termination_by 1 + sizeOf v + sizeOf ms
decreasing_by all_goals (simp_wf <;> omega)

end

mutual

/-- Structural size of a JSON value, used as parser fuel. -/
def jsize : Json → Nat
  | .null => 1
  | .bool _ => 1
  | .num _ => 1
  | .str _ => 1
  | .arr [] => 1
  | .arr (x :: xs) => 1 + esize x xs
  | .obj [] => 1
  | .obj ((k, v) :: ms) => 1 + msize k v ms
termination_by v => sizeOf v
decreasing_by all_goals (simp_wf <;> omega)

/-- Size of a nonempty array body. -/
def esize (x : Json) (xs : List Json) : Nat :=
  match xs with
  | [] => 1 + jsize x
  | y :: ys => 1 + jsize x + esize y ys
termination_by 1 + sizeOf x + sizeOf xs
decreasing_by all_goals (simp_wf <;> omega)

/-- Size of a nonempty object body. -/
def msize (_k : String) (v : Json) (ms : List (String × Json)) : Nat :=
  match ms with
  | [] => 1 + jsize v
  | (k', v') :: ms' => 1 + jsize v + msize k' v' ms'
termination_by 1 + sizeOf v + sizeOf ms
decreasing_by all_goals (simp_wf <;> omega)

end

mutual

/-- Fuelled JSON value reader (model of `json.loads`): dispatch on the first
character, which the caller has already stripped whitespace before. -/
def parseVal : Nat → List Char → Option (Json × List Char)
  | 0, _ => none
  | _ + 1, [] => none
  | f + 1, c :: cs =>
    if c.toNat = 110 then
      (match cs with
       | 'u' :: 'l' :: 'l' :: r => some (.null, r)
       | _ => none)
    else if c.toNat = 116 then
      (match cs with
       | 'r' :: 'u' :: 'e' :: r => some (.bool true, r)
       | _ => none)
    else if c.toNat = 102 then
      (match cs with
       | 'a' :: 'l' :: 's' :: 'e' :: r => some (.bool false, r)
       | _ => none)
    else if c.toNat = 34 then
      match parseStrBody cs with
      | some (b, r) => some (.str (String.mk b), r)
      | none => none
    else if c.toNat = 91 then
      match skipWs cs with
      | d :: r' =>
        if d.toNat = 93 then some (.arr [], r')
        else
          (match parseElems f (d :: r') with
           | some (vs, r) => some (.arr vs, r)
           | none => none)
      | [] => none
    else if c.toNat = 123 then
      match skipWs cs with
      | d :: r' =>
        if d.toNat = 125 then some (.obj [], r')
        else
          (match parseMembs f (d :: r') with
           | some (ms, r) => some (.obj ms, r)
           | none => none)
      | [] => none
    else
      match parseIntTok (c :: cs) with
      | some (n, r) => some (.num n, r)
      | none => none

/-- Read the elements of a nonempty array body, up to and including the
closing square bracket. -/
def parseElems : Nat → List Char → Option (List Json × List Char)
  | 0, _ => none
  | f + 1, l =>
    match parseVal f l with
    | none => none
    | some (v, r) =>
      match skipWs r with
      | c :: r' =>
        if c.toNat = 44 then
          match parseElems f (skipWs r') with
          | some (vs, rr) => some (v :: vs, rr)
          | none => none
        else if c.toNat = 93 then some ([v], r')
        else none
      | [] => none

/-- Read the members of a nonempty object body, up to and including the
closing curly bracket. -/
def parseMembs : Nat → List Char → Option (List (String × Json) × List Char)
  | 0, _ => none
  | f + 1, l =>
    match l with
    | [] => none
    | c :: cs =>
      if c.toNat = 34 then
        match parseStrBody cs with
        | some (k, r) =>
          (match skipWs r with
           | d :: r' =>
             if d.toNat = 58 then
               match parseVal f (skipWs r') with
               | some (v, r2) =>
                 (match skipWs r2 with
                  | e :: r3 =>
                    if e.toNat = 44 then
                      match parseMembs f (skipWs r3) with
                      | some (ms, r4) => some ((String.mk k, v) :: ms, r4)
                      | none => none
                    else if e.toNat = 125 then some ([(String.mk k, v)], r3)
                    else none
                  | [] => none)
               | none => none
             else none
           | [] => none)
        | none => none
      else none

end

/-- Model of `json.dumps`: serialize a JSON value to a string. -/
def jsonEncode (v : Json) : String := String.mk (encodeJ v)

/-- Model of `json.loads`: parse an entire string (leading and trailing
whitespace allowed) to a JSON value; `none` models `json.JSONDecodeError`. -/
def jsonParse (s : String) : Option Json :=
  let l := skipWs s.toList
  match parseVal (l.length + 1) l with
  | some (v, r) => if (skipWs r).isEmpty then some v else none
  | none => none

end Agentless

namespace Agentless

/-! ## Codec lemmas: decimal numbers -/

theorem encodeNatAux_append (n : Nat) (acc : List Char) :
    encodeNatAux n acc = encodeNatAux n [] ++ acc := by
  induction n using Nat.strong_induction_on generalizing acc with
  | _ n ih =>
    by_cases h : n < 10
    · conv_lhs => rw [encodeNatAux.eq_def]
      conv_rhs => rw [encodeNatAux.eq_def]
      simp [h]
    · conv_lhs => rw [encodeNatAux.eq_def]
      conv_rhs => rw [encodeNatAux.eq_def]
      rw [if_neg h, if_neg h,
        ih (n / 10) (Nat.div_lt_self (by omega) (by omega)) (digitChar (n % 10) :: acc),
        ih (n / 10) (Nat.div_lt_self (by omega) (by omega)) [digitChar (n % 10)]]
      simp

theorem encodeNat_unfold (n : Nat) :
    encodeNat n =
      if n < 10 then [digitChar n] else encodeNat (n / 10) ++ [digitChar (n % 10)] := by
  rw [encodeNat, encodeNatAux.eq_def]
  split
  · rfl
  · rw [encodeNatAux_append]
    rfl

theorem encodeNat_ne_nil (n : Nat) : encodeNat n ≠ [] := by
  rw [encodeNat_unfold]
  split <;> simp

theorem digit_digitChar : ∀ d, d < 10 → isDigitC (digitChar d) = true := by decide

theorem digitVal_digitChar : ∀ d, d < 10 → digitVal (digitChar d) = d := by decide

theorem encodeNat_digits (n : Nat) : ∀ c ∈ encodeNat n, isDigitC c = true := by
  induction n using Nat.strong_induction_on with
  | _ n ih =>
    rw [encodeNat_unfold]
    by_cases h : n < 10
    · simp only [if_pos h, List.mem_singleton]
      rintro c rfl
      exact digit_digitChar n h
    · simp only [if_neg h, List.mem_append, List.mem_singleton]
      rintro c (hc | rfl)
      · exact ih (n / 10) (Nat.div_lt_self (by omega) (by omega)) c hc
      · exact digit_digitChar _ (Nat.mod_lt _ (by omega))

theorem foldl_encodeNat (n : Nat) :
    (encodeNat n).foldl (fun a c => a * 10 + digitVal c) 0 = n := by
  induction n using Nat.strong_induction_on with
  | _ n ih =>
    rw [encodeNat_unfold]
    by_cases h : n < 10
    · simp [if_pos h, digitVal_digitChar n h]
    · rw [if_neg h, List.foldl_append, ih (n / 10) (Nat.div_lt_self (by omega) (by omega))]
      simp only [List.foldl_cons, List.foldl_nil, digitVal_digitChar _ (Nat.mod_lt n (by omega))]
      omega

/-- The continuation after a number token must not begin with a digit. -/
def notDigitHead : List Char → Prop
  | [] => True
  | c :: _ => isDigitC c = false

theorem parseDigits_append (ds : List Char) :
    ∀ (rest : List Char) (acc : Nat), (∀ c ∈ ds, isDigitC c = true) → notDigitHead rest →
      parseDigits (ds ++ rest) acc =
        (ds.foldl (fun a c => a * 10 + digitVal c) acc, rest) := by
  induction ds with
  | nil =>
    intro rest acc _ hr
    match rest with
    | [] => simp [parseDigits]
    | c :: cs =>
      have hc : isDigitC c = false := hr
      simp [parseDigits, hc]
  | cons c cs ih =>
    intro rest acc hd hr
    have hc : isDigitC c = true := hd c (List.mem_cons_self c cs)
    simp only [List.cons_append, parseDigits, hc, if_true, List.foldl_cons]
    exact ih rest (acc * 10 + digitVal c) (fun x hx => hd x (List.mem_cons_of_mem c hx)) hr

theorem parseNatTok_encodeNat (n : Nat) (rest : List Char) (hr : notDigitHead rest) :
    parseNatTok (encodeNat n ++ rest) = some (n, rest) := by
  obtain ⟨c, cs, hcons⟩ := List.exists_cons_of_ne_nil (encodeNat_ne_nil n)
  have hdigs := encodeNat_digits n
  have hc : isDigitC c = true := hdigs c (by rw [hcons]; exact List.mem_cons_self c cs)
  have hval := foldl_encodeNat n
  rw [hcons] at hval
  simp only [List.foldl_cons, Nat.zero_mul, Nat.zero_add] at hval
  rw [hcons, List.cons_append, parseNatTok, if_pos hc,
    parseDigits_append cs rest (digitVal c)
      (fun x hx => hdigs x (by rw [hcons]; exact List.mem_cons_of_mem c hx)) hr,
    hval]

theorem isDigitC_ne_minus {c : Char} (hc : isDigitC c = true) : c ≠ '-' := by
  intro h
  rw [h] at hc
  exact absurd hc (by decide)

theorem parseIntTok_encodeInt (n : Int) (rest : List Char) (hr : notDigitHead rest) :
    parseIntTok (encodeInt n ++ rest) = some (n, rest) := by
  rw [encodeInt]
  by_cases h : n < 0
  · rw [if_pos h, List.cons_append, parseIntTok, if_pos rfl,
      parseNatTok_encodeNat _ _ hr]
    simp only [Option.some.injEq, Prod.mk.injEq]
    exact ⟨by omega, trivial⟩
  · rw [if_neg h]
    obtain ⟨c, cs, hcons⟩ := List.exists_cons_of_ne_nil (encodeNat_ne_nil n.toNat)
    have hc : isDigitC c = true :=
      encodeNat_digits n.toNat c (by rw [hcons]; exact List.mem_cons_self c cs)
    rw [hcons, List.cons_append, parseIntTok, if_neg (isDigitC_ne_minus hc),
      ← List.cons_append, ← hcons, parseNatTok_encodeNat _ _ hr]
    simp only [Option.some.injEq, Prod.mk.injEq]
    exact ⟨by omega, trivial⟩

/-! ## Codec lemmas: strings -/

theorem parseStrBody_escape (cs rest : List Char) :
    parseStrBody (escapeList cs ++ qc :: rest) = some (cs, rest) := by
  induction cs with
  | nil =>
    rw [show escapeList [] = [] from rfl, List.nil_append, parseStrBody.eq_def]
    simp
  | cons c cs ih =>
    by_cases h : c = qc ∨ c = bsl
    · have h1 : (bsl = qc) = False := by decide
      rw [escapeList, if_pos h, List.cons_append, List.cons_append, parseStrBody.eq_def]
      simp [h1, ih]
    · push_neg at h
      rw [escapeList, if_neg (by tauto), List.cons_append, parseStrBody.eq_def]
      simp [h.1, h.2, ih]

theorem string_mk_toList (s : String) : String.mk s.toList = s := rfl

end Agentless

namespace Agentless

/-! ## Codec lemmas: heads and whitespace -/

theorem jsize_pos (v : Json) : 1 ≤ jsize v := by
  cases v with
  | arr xs => cases xs <;> simp [jsize]
  | obj kvs =>
    match kvs with
    | [] => simp [jsize]
    | (k, v) :: ms => simp [jsize]
  | _ => simp [jsize]

theorem esize_pos (x : Json) (xs : List Json) : 1 ≤ esize x xs := by
  cases xs with
  | nil => simp [esize]
  | cons y ys =>
    simp only [esize]
    omega

theorem msize_pos (k : String) (v : Json) (ms : List (String × Json)) :
    1 ≤ msize k v ms := by
  match ms with
  | [] => simp [msize]
  | (k', v') :: ms' =>
    simp only [msize]
    omega

theorem encodeInt_head (n : Int) :
    ∃ c l, encodeInt n = c :: l ∧ (c.toNat = 45 ∨ (48 ≤ c.toNat ∧ c.toNat ≤ 57)) := by
  rw [encodeInt]
  by_cases h : n < 0
  · exact ⟨'-', _, by rw [if_pos h], Or.inl (by decide)⟩
  · rw [if_neg h]
    obtain ⟨c, cs, hcons⟩ := List.exists_cons_of_ne_nil (encodeNat_ne_nil n.toNat)
    have hc : isDigitC c = true :=
      encodeNat_digits n.toNat c (by rw [hcons]; exact List.mem_cons_self c cs)
    simp only [isDigitC, Bool.and_eq_true, decide_eq_true_eq] at hc
    exact ⟨c, cs, hcons, Or.inr hc⟩

theorem encodeJ_head (v : Json) :
    ∃ c l, encodeJ v = c :: l ∧
      (c.toNat = 110 ∨ c.toNat = 116 ∨ c.toNat = 102 ∨ c.toNat = 34 ∨
        c.toNat = 91 ∨ c.toNat = 123 ∨ c.toNat = 45 ∨
        (48 ≤ c.toNat ∧ c.toNat ≤ 57)) := by
  cases v with
  | null =>
    exact ⟨'n', ['u', 'l', 'l'], by simp [encodeJ], by decide⟩
  | bool b =>
    cases b
    · exact ⟨'f', ['a', 'l', 's', 'e'], by simp [encodeJ], by decide⟩
    · exact ⟨'t', ['r', 'u', 'e'], by simp [encodeJ], by decide⟩
  | num n =>
    obtain ⟨c, l, hcons, hg⟩ := encodeInt_head n
    exact ⟨c, l, by simp [encodeJ, hcons], by omega⟩
  | str s =>
    exact ⟨qc, escapeList s.toList ++ [qc], by simp [encodeJ, encodeStr], by decide⟩
  | arr xs =>
    cases xs with
    | nil => exact ⟨'[', [']'], by simp [encodeJ], by decide⟩
    | cons x xs =>
      exact ⟨'[', encodeElems x xs ++ [']'], by simp [encodeJ], by decide⟩
  | obj kvs =>
    match kvs with
    | [] => exact ⟨lcur, [rcur], by simp [encodeJ], by decide⟩
    | (k, v) :: ms =>
      exact ⟨lcur, encodeMembs k v ms ++ [rcur], by simp [encodeJ], by decide⟩

theorem skipWs_cons_not_ws {c : Char} (l : List Char) (h : isWs c = false) :
    skipWs (c :: l) = c :: l := by
  simp [skipWs, h]

theorem skipWs_encodeJ (v : Json) (r : List Char) :
    skipWs (encodeJ v ++ r) = encodeJ v ++ r := by
  obtain ⟨c, l, h, hg⟩ := encodeJ_head v
  have hw : isWs c = false := by
    simp only [isWs, Bool.or_eq_false_iff, decide_eq_false_iff_not]
    omega
  rw [h, List.cons_append, skipWs_cons_not_ws _ hw]

theorem encodeElems_prefix (x : Json) (xs : List Json) :
    ∃ t, encodeElems x xs = encodeJ x ++ t := by
  cases xs with
  | nil => exact ⟨[], by simp [encodeElems]⟩
  | cons y ys => exact ⟨',' :: ' ' :: encodeElems y ys, by simp [encodeElems]⟩

theorem skipWs_encodeElems (x : Json) (xs : List Json) (r : List Char) :
    skipWs (encodeElems x xs ++ r) = encodeElems x xs ++ r := by
  obtain ⟨t, ht⟩ := encodeElems_prefix x xs
  rw [ht, List.append_assoc, skipWs_encodeJ, ← List.append_assoc]

theorem encodeMembs_head (k : String) (v : Json) (ms : List (String × Json)) :
    ∃ t, encodeMembs k v ms = qc :: t := by
  match ms with
  | [] =>
    exact ⟨escapeList k.toList ++ qc :: ':' :: ' ' :: encodeJ v,
      by simp [encodeMembs, encodeStr]⟩
  | (k', v') :: ms' =>
    exact ⟨escapeList k.toList ++
        qc :: ':' :: ' ' :: (encodeJ v ++ ',' :: ' ' :: encodeMembs k' v' ms'),
      by simp [encodeMembs, encodeStr]⟩

theorem skipWs_encodeMembs (k : String) (v : Json) (ms : List (String × Json))
    (r : List Char) :
    skipWs (encodeMembs k v ms ++ r) = encodeMembs k v ms ++ r := by
  obtain ⟨t, ht⟩ := encodeMembs_head k v ms
  rw [ht, List.cons_append, skipWs_cons_not_ws _ (by decide)]

end Agentless

namespace Agentless

/-! ## Parser branch lemmas -/

theorem skipWs_space (l : List Char) : skipWs (' ' :: l) = skipWs l := by
  simp [skipWs, isWs]

theorem parseVal_null (f : Nat) (cs : List Char) :
    parseVal (f + 1) ('n' :: 'u' :: 'l' :: 'l' :: cs) = some (.null, cs) := by
  simp [parseVal]

theorem parseVal_true (f : Nat) (cs : List Char) :
    parseVal (f + 1) ('t' :: 'r' :: 'u' :: 'e' :: cs) = some (.bool true, cs) := by
  simp [parseVal]

theorem parseVal_false (f : Nat) (cs : List Char) :
    parseVal (f + 1) ('f' :: 'a' :: 'l' :: 's' :: 'e' :: cs) = some (.bool false, cs) := by
  simp [parseVal]

theorem parseVal_str_go (f : Nat) (c : Char) (cs : List Char) (b r : List Char)
    (h34 : c.toNat = 34) (hbody : parseStrBody cs = some (b, r)) :
    parseVal (f + 1) (c :: cs) = some (.str (String.mk b), r) := by
  simp only [parseVal]
  rw [if_neg (by omega), if_neg (by omega), if_neg (by omega), if_pos h34]
  simp only [hbody]

theorem parseVal_num_go (f : Nat) (c : Char) (cs : List Char) (n : Int) (r : List Char)
    (hg : c.toNat = 45 ∨ (48 ≤ c.toNat ∧ c.toNat ≤ 57))
    (hint : parseIntTok (c :: cs) = some (n, r)) :
    parseVal (f + 1) (c :: cs) = some (.num n, r) := by
  simp only [parseVal]
  rw [if_neg (by omega), if_neg (by omega), if_neg (by omega), if_neg (by omega),
    if_neg (by omega), if_neg (by omega)]
  simp only [hint]

theorem parseVal_arr_empty (f : Nat) (c : Char) (cs : List Char) (d : Char)
    (r' : List Char) (h91 : c.toNat = 91) (hskip : skipWs cs = d :: r')
    (h93 : d.toNat = 93) :
    parseVal (f + 1) (c :: cs) = some (.arr [], r') := by
  simp only [parseVal]
  rw [if_neg (by omega), if_neg (by omega), if_neg (by omega), if_neg (by omega),
    if_pos h91]
  simp only [hskip]
  rw [if_pos h93]

theorem parseVal_arr_go (f : Nat) (c : Char) (cs : List Char) (d : Char)
    (r' : List Char) (vs : List Json) (r : List Char) (h91 : c.toNat = 91)
    (hskip : skipWs cs = d :: r') (hd : ¬d.toNat = 93)
    (helems : parseElems f (d :: r') = some (vs, r)) :
    parseVal (f + 1) (c :: cs) = some (.arr vs, r) := by
  simp only [parseVal]
  rw [if_neg (by omega), if_neg (by omega), if_neg (by omega), if_neg (by omega),
    if_pos h91]
  simp only [hskip]
  rw [if_neg hd]
  simp only [helems]

theorem parseVal_obj_empty (f : Nat) (c : Char) (cs : List Char) (d : Char)
    (r' : List Char) (h123 : c.toNat = 123) (hskip : skipWs cs = d :: r')
    (h125 : d.toNat = 125) :
    parseVal (f + 1) (c :: cs) = some (.obj [], r') := by
  simp only [parseVal]
  rw [if_neg (by omega), if_neg (by omega), if_neg (by omega), if_neg (by omega),
    if_neg (by omega), if_pos h123]
  simp only [hskip]
  rw [if_pos h125]

theorem parseVal_obj_go (f : Nat) (c : Char) (cs : List Char) (d : Char)
    (r' : List Char) (ms : List (String × Json)) (r : List Char)
    (h123 : c.toNat = 123) (hskip : skipWs cs = d :: r') (hd : ¬d.toNat = 125)
    (hmembs : parseMembs f (d :: r') = some (ms, r)) :
    parseVal (f + 1) (c :: cs) = some (.obj ms, r) := by
  simp only [parseVal]
  rw [if_neg (by omega), if_neg (by omega), if_neg (by omega), if_neg (by omega),
    if_neg (by omega), if_pos h123]
  simp only [hskip]
  rw [if_neg hd]
  simp only [hmembs]

theorem parseElems_go_last (f : Nat) (l : List Char) (x : Json) (r : List Char)
    (c : Char) (r' : List Char) (hval : parseVal f l = some (x, r))
    (hskip : skipWs r = c :: r') (h93 : c.toNat = 93) :
    parseElems (f + 1) l = some ([x], r') := by
  simp only [parseElems, hval, hskip]
  rw [if_neg (by omega), if_pos h93]

theorem parseElems_go_cons (f : Nat) (l : List Char) (x : Json) (r : List Char)
    (c : Char) (r' : List Char) (vs : List Json) (rr : List Char)
    (hval : parseVal f l = some (x, r)) (hskip : skipWs r = c :: r')
    (h44 : c.toNat = 44) (hrec : parseElems f (skipWs r') = some (vs, rr)) :
    parseElems (f + 1) l = some (x :: vs, rr) := by
  simp only [parseElems, hval, hskip]
  rw [if_pos h44]
  simp only [hrec]

theorem parseMembs_go_last (f : Nat) (c : Char) (cs : List Char) (k : List Char)
    (r : List Char) (d : Char) (r' : List Char) (v : Json) (r2 : List Char)
    (e : Char) (r3 : List Char) (h34 : c.toNat = 34)
    (hkey : parseStrBody cs = some (k, r)) (hskip1 : skipWs r = d :: r')
    (h58 : d.toNat = 58) (hval : parseVal f (skipWs r') = some (v, r2))
    (hskip2 : skipWs r2 = e :: r3) (h125 : e.toNat = 125) :
    parseMembs (f + 1) (c :: cs) = some ([(String.mk k, v)], r3) := by
  simp only [parseMembs]
  rw [if_pos h34]
  simp only [hkey, hskip1]
  rw [if_pos h58]
  simp only [hval, hskip2]
  rw [if_neg (by omega), if_pos h125]

theorem parseMembs_go_cons (f : Nat) (c : Char) (cs : List Char) (k : List Char)
    (r : List Char) (d : Char) (r' : List Char) (v : Json) (r2 : List Char)
    (e : Char) (r3 : List Char) (ms : List (String × Json)) (r4 : List Char)
    (h34 : c.toNat = 34) (hkey : parseStrBody cs = some (k, r))
    (hskip1 : skipWs r = d :: r') (h58 : d.toNat = 58)
    (hval : parseVal f (skipWs r') = some (v, r2)) (hskip2 : skipWs r2 = e :: r3)
    (h44 : e.toNat = 44) (hrec : parseMembs f (skipWs r3) = some (ms, r4)) :
    parseMembs (f + 1) (c :: cs) = some ((String.mk k, v) :: ms, r4) := by
  simp only [parseMembs]
  rw [if_pos h34]
  simp only [hkey, hskip1]
  rw [if_pos h58]
  simp only [hval, hskip2]
  rw [if_pos h44]
  simp only [hrec]

end Agentless

namespace Agentless

/-! ## The codec round trip -/

theorem notDigitHead_cons {c : Char} (l : List Char) (h : isDigitC c = false) :
    notDigitHead (c :: l) := h

/-- The three parser round-trip statements, proved together by strong
induction on the fuel. -/
theorem parse_encode_aux (f : Nat) :
    (∀ (v : Json) (rest : List Char), jsize v ≤ f → notDigitHead rest →
      parseVal f (encodeJ v ++ rest) = some (v, rest)) ∧
    (∀ (x : Json) (xs : List Json) (rest : List Char), esize x xs ≤ f →
      parseElems f (encodeElems x xs ++ ']' :: rest) = some (x :: xs, rest)) ∧
    (∀ (k : String) (v : Json) (ms : List (String × Json)) (rest : List Char),
      msize k v ms ≤ f →
      parseMembs f (encodeMembs k v ms ++ rcur :: rest) = some ((k, v) :: ms, rest)) := by
  induction f using Nat.strong_induction_on with
  | _ f ih =>
    refine ⟨?_, ?_, ?_⟩
    · intro v rest hf hr
      obtain ⟨f', rfl⟩ : ∃ f', f = f' + 1 := ⟨f - 1, by have := jsize_pos v; omega⟩
      cases v with
      | null =>
        rw [show encodeJ .null ++ rest = 'n' :: 'u' :: 'l' :: 'l' :: rest from by
          simp [encodeJ]]
        exact parseVal_null f' rest
      | bool b =>
        cases b with
        | false =>
          rw [show encodeJ (.bool false) ++ rest
              = 'f' :: 'a' :: 'l' :: 's' :: 'e' :: rest from by simp [encodeJ]]
          exact parseVal_false f' rest
        | true =>
          rw [show encodeJ (.bool true) ++ rest = 't' :: 'r' :: 'u' :: 'e' :: rest
            from by simp [encodeJ]]
          exact parseVal_true f' rest
      | num n =>
        rw [show encodeJ (.num n) ++ rest = encodeInt n ++ rest from by simp [encodeJ]]
        obtain ⟨c, l, hc, hg⟩ := encodeInt_head n
        rw [hc, List.cons_append]
        exact parseVal_num_go f' c (l ++ rest) n rest hg
          (by rw [← List.cons_append, ← hc]; exact parseIntTok_encodeInt n rest hr)
      | str s =>
        rw [show encodeJ (.str s) ++ rest = qc :: (escapeList s.toList ++ qc :: rest)
          from by simp [encodeJ, encodeStr]]
        exact parseVal_str_go f' qc _ s.toList rest (by decide) (parseStrBody_escape _ _)
      | arr xs =>
        cases xs with
        | nil =>
          rw [show encodeJ (.arr []) ++ rest = '[' :: (']' :: rest) from by
            simp [encodeJ]]
          exact parseVal_arr_empty f' '[' (']' :: rest) ']' rest (by decide)
            (skipWs_cons_not_ws _ (by decide)) (by decide)
        | cons x xs =>
          have hsz : esize x xs ≤ f' := by
            have h1 : jsize (.arr (x :: xs)) = 1 + esize x xs := by simp [jsize]
            omega
          obtain ⟨t, ht⟩ := encodeElems_prefix x xs
          obtain ⟨c, l, hcx, hg⟩ := encodeJ_head x
          have hcons : encodeElems x xs ++ ']' :: rest
              = c :: (l ++ (t ++ ']' :: rest)) := by
            rw [ht, hcx]
            simp
          rw [show encodeJ (.arr (x :: xs)) ++ rest
              = '[' :: (encodeElems x xs ++ ']' :: rest) from by simp [encodeJ]]
          exact parseVal_arr_go f' '[' _ c (l ++ (t ++ ']' :: rest)) (x :: xs) rest
            (by decide)
            (by rw [skipWs_encodeElems, hcons])
            (by omega)
            (by rw [← hcons]; exact (ih f' (by omega)).2.1 x xs rest hsz)
      | obj kvs =>
        match kvs with
        | [] =>
          rw [show encodeJ (.obj []) ++ rest = lcur :: (rcur :: rest) from by
            simp [encodeJ]]
          exact parseVal_obj_empty f' lcur (rcur :: rest) rcur rest (by decide)
            (skipWs_cons_not_ws _ (by decide)) (by decide)
        | (k, v) :: ms =>
          have hsz : msize k v ms ≤ f' := by
            have h1 : jsize (.obj ((k, v) :: ms)) = 1 + msize k v ms := by simp [jsize]
            omega
          obtain ⟨t, ht⟩ := encodeMembs_head k v ms
          have hcons : encodeMembs k v ms ++ rcur :: rest
              = qc :: (t ++ rcur :: rest) := by
            rw [ht]
            simp
          rw [show encodeJ (.obj ((k, v) :: ms)) ++ rest
              = lcur :: (encodeMembs k v ms ++ rcur :: rest) from by simp [encodeJ]]
          exact parseVal_obj_go f' lcur _ qc (t ++ rcur :: rest) ((k, v) :: ms) rest
            (by decide)
            (by rw [skipWs_encodeMembs, hcons])
            (by decide)
            (by rw [← hcons]; exact (ih f' (by omega)).2.2 k v ms rest hsz)
    · intro x xs rest hf
      obtain ⟨f', rfl⟩ : ∃ f', f = f' + 1 := ⟨f - 1, by have := esize_pos x xs; omega⟩
      cases xs with
      | nil =>
        have hszx : jsize x ≤ f' := by
          have h1 : esize x [] = 1 + jsize x := by simp [esize]
          omega
        rw [show encodeElems x [] ++ ']' :: rest = encodeJ x ++ ']' :: rest from by
          simp [encodeElems]]
        exact parseElems_go_last f' _ x (']' :: rest) ']' rest
          ((ih f' (by omega)).1 x (']' :: rest) hszx (notDigitHead_cons _ (by decide)))
          (skipWs_cons_not_ws _ (by decide)) (by decide)
      | cons y ys =>
        have h1 : esize x (y :: ys) = 1 + jsize x + esize y ys := by simp [esize]
        have hszx : jsize x ≤ f' := by
          have h2 := esize_pos y ys
          omega
        have hszy : esize y ys ≤ f' := by
          have h2 := jsize_pos x
          omega
        rw [show encodeElems x (y :: ys) ++ ']' :: rest
            = encodeJ x ++ ',' :: ' ' :: (encodeElems y ys ++ ']' :: rest) from by
          simp [encodeElems]]
        exact parseElems_go_cons f' _ x
          (',' :: ' ' :: (encodeElems y ys ++ ']' :: rest))
          ',' (' ' :: (encodeElems y ys ++ ']' :: rest)) (y :: ys) rest
          ((ih f' (by omega)).1 x _ hszx (notDigitHead_cons _ (by decide)))
          (skipWs_cons_not_ws _ (by decide)) (by decide)
          (by rw [skipWs_space, skipWs_encodeElems]
              exact (ih f' (by omega)).2.1 y ys rest hszy)
    · intro k v ms rest hf
      obtain ⟨f', rfl⟩ : ∃ f', f = f' + 1 := ⟨f - 1, by have := msize_pos k v ms; omega⟩
      match ms with
      | [] =>
        have hszv : jsize v ≤ f' := by
          have h1 : msize k v [] = 1 + jsize v := by simp [msize]
          omega
        rw [show encodeMembs k v [] ++ rcur :: rest
            = qc :: (escapeList k.toList
                ++ qc :: (':' :: ' ' :: (encodeJ v ++ rcur :: rest)))
          from by simp [encodeMembs, encodeStr]]
        have hres := parseMembs_go_last f' qc
          (escapeList k.toList ++ qc :: (':' :: ' ' :: (encodeJ v ++ rcur :: rest)))
          k.toList (':' :: ' ' :: (encodeJ v ++ rcur :: rest)) ':'
          (' ' :: (encodeJ v ++ rcur :: rest)) v (rcur :: rest) rcur rest
          (by decide) (parseStrBody_escape _ _)
          (skipWs_cons_not_ws _ (by decide)) (by decide)
          (by rw [skipWs_space, skipWs_encodeJ]
              exact (ih f' (by omega)).1 v _ hszv (notDigitHead_cons _ (by decide)))
          (skipWs_cons_not_ws _ (by decide)) (by decide)
        rw [hres, string_mk_toList]
      | (k', v') :: ms' =>
        have h1 : msize k v ((k', v') :: ms') = 1 + jsize v + msize k' v' ms' := by
          simp [msize]
        have hszv : jsize v ≤ f' := by
          have h2 := msize_pos k' v' ms'
          omega
        have hszm : msize k' v' ms' ≤ f' := by
          have h2 := jsize_pos v
          omega
        rw [show encodeMembs k v ((k', v') :: ms') ++ rcur :: rest
            = qc :: (escapeList k.toList
                ++ qc :: (':' :: ' ' :: (encodeJ v
                  ++ ',' :: ' ' :: (encodeMembs k' v' ms' ++ rcur :: rest))))
          from by simp [encodeMembs, encodeStr]]
        have hres := parseMembs_go_cons f' qc
          (escapeList k.toList
            ++ qc :: (':' :: ' ' :: (encodeJ v
              ++ ',' :: ' ' :: (encodeMembs k' v' ms' ++ rcur :: rest))))
          k.toList
          (':' :: ' '
            :: (encodeJ v ++ ',' :: ' ' :: (encodeMembs k' v' ms' ++ rcur :: rest)))
          ':'
          (' ' :: (encodeJ v ++ ',' :: ' ' :: (encodeMembs k' v' ms' ++ rcur :: rest)))
          v (',' :: ' ' :: (encodeMembs k' v' ms' ++ rcur :: rest))
          ',' (' ' :: (encodeMembs k' v' ms' ++ rcur :: rest))
          ((k', v') :: ms') rest
          (by decide) (parseStrBody_escape _ _)
          (skipWs_cons_not_ws _ (by decide)) (by decide)
          (by rw [skipWs_space, skipWs_encodeJ]
              exact (ih f' (by omega)).1 v _ hszv (notDigitHead_cons _ (by decide)))
          (skipWs_cons_not_ws _ (by decide)) (by decide)
          (by rw [skipWs_space, skipWs_encodeMembs]
              exact (ih f' (by omega)).2.2 k' v' ms' rest hszm)
        rw [hres, string_mk_toList]

theorem parseVal_encodeJ (v : Json) (f : Nat) (rest : List Char)
    (hf : jsize v ≤ f) (hr : notDigitHead rest) :
    parseVal f (encodeJ v ++ rest) = some (v, rest) :=
  (parse_encode_aux f).1 v rest hf hr

end Agentless

namespace Agentless

/-! ## Fuel sufficiency and the top-level round trip -/

theorem jsize_le_length_aux (n : Nat) :
    (∀ v : Json, sizeOf v ≤ n → jsize v ≤ (encodeJ v).length) ∧
    (∀ (x : Json) (xs : List Json), 1 + sizeOf x + sizeOf xs ≤ n →
      esize x xs ≤ (encodeElems x xs).length + 1) ∧
    (∀ (k : String) (v : Json) (ms : List (String × Json)),
      1 + sizeOf v + sizeOf ms ≤ n →
      msize k v ms ≤ (encodeMembs k v ms).length + 1) := by
  induction n using Nat.strong_induction_on with
  | _ n ih =>
    refine ⟨?_, ?_, ?_⟩
    · intro v hn
      cases v with
      | null => simp [jsize, encodeJ]
      | bool b => cases b <;> simp [jsize, encodeJ]
      | num m =>
        obtain ⟨c, l, hc, _⟩ := encodeInt_head m
        simp [jsize, encodeJ, hc]
      | str s => simp [jsize, encodeJ, encodeStr]
      | arr xs =>
        cases xs with
        | nil => simp [jsize, encodeJ]
        | cons x xs =>
          have hsv : sizeOf (Json.arr (x :: xs)) = 2 + sizeOf x + sizeOf xs := by
            simp
            omega
          have he := (ih (1 + sizeOf x + sizeOf xs) (by omega)).2.1 x xs (by omega)
          have h1 : jsize (.arr (x :: xs)) = 1 + esize x xs := by simp [jsize]
          have h2 : (encodeJ (.arr (x :: xs))).length
              = (encodeElems x xs).length + 2 := by
            simp [encodeJ]
          omega
      | obj kvs =>
        match kvs with
        | [] => simp [jsize, encodeJ]
        | (k, v) :: ms =>
          have hsv : sizeOf (Json.obj ((k, v) :: ms))
              = 3 + sizeOf k + sizeOf v + sizeOf ms := by
            simp
            omega
          have he := (ih (1 + sizeOf v + sizeOf ms) (by omega)).2.2 k v ms (by omega)
          have h1 : jsize (.obj ((k, v) :: ms)) = 1 + msize k v ms := by simp [jsize]
          have h2 : (encodeJ (.obj ((k, v) :: ms))).length
              = (encodeMembs k v ms).length + 2 := by
            simp [encodeJ]
          omega
    · intro x xs hn
      cases xs with
      | nil =>
        have hx := (ih (sizeOf x) (by simp at hn ⊢; omega)).1 x (le_refl _)
        have h1 : esize x [] = 1 + jsize x := by simp [esize]
        have h2 : (encodeElems x []).length = (encodeJ x).length := by simp [encodeElems]
        omega
      | cons y ys =>
        have hsl : sizeOf (y :: ys) = 1 + sizeOf y + sizeOf ys := by
          simp
        have hx := (ih (sizeOf x) (by omega)).1 x (le_refl _)
        have he := (ih (1 + sizeOf y + sizeOf ys) (by omega)).2.1 y ys (le_refl _)
        have h1 : esize x (y :: ys) = 1 + jsize x + esize y ys := by simp [esize]
        have h2 : (encodeElems x (y :: ys)).length
            = (encodeJ x).length + (encodeElems y ys).length + 2 := by
          simp [encodeElems]
          omega
        omega
    · intro k v ms hn
      match ms with
      | [] =>
        have hv := (ih (sizeOf v) (by simp at hn ⊢; omega)).1 v (le_refl _)
        have h1 : msize k v [] = 1 + jsize v := by simp [msize]
        have h2 : (encodeMembs k v []).length
            = (encodeStr k).length + (encodeJ v).length + 2 := by
          simp [encodeMembs]
          omega
        omega
      | (k', v') :: ms' =>
        have hsl : sizeOf ((k', v') :: ms')
            = 2 + sizeOf k' + sizeOf v' + sizeOf ms' := by
          simp
          omega
        have hv := (ih (sizeOf v) (by omega)).1 v (le_refl _)
        have hm := (ih (1 + sizeOf v' + sizeOf ms') (by omega)).2.2 k' v' ms' (le_refl _)
        have h1 : msize k v ((k', v') :: ms') = 1 + jsize v + msize k' v' ms' := by
          simp [msize]
        have h2 : (encodeMembs k v ((k', v') :: ms')).length
            = (encodeStr k).length + (encodeJ v).length
              + (encodeMembs k' v' ms').length + 4 := by
          simp [encodeMembs]
          omega
        omega

theorem jsize_le_length (v : Json) : jsize v ≤ (encodeJ v).length :=
  (jsize_le_length_aux (sizeOf v)).1 v (le_refl _)

theorem skipWs_encodeJ_nil (v : Json) : skipWs (encodeJ v) = encodeJ v := by
  have h := skipWs_encodeJ v []
  simpa using h

/-- Round trip of the JSON codec: decoding a serialized value restores it. -/
theorem jsonParse_jsonEncode (v : Json) : jsonParse (jsonEncode v) = some v := by
  simp only [jsonParse, jsonEncode]
  have h0 : skipWs (String.mk (encodeJ v)).toList = encodeJ v := by
    have h1 : (String.mk (encodeJ v)).toList = encodeJ v := rfl
    rw [h1, skipWs_encodeJ_nil]
  rw [h0]
  have hp : parseVal ((encodeJ v).length + 1) (encodeJ v) = some (v, []) := by
    have h2 := parseVal_encodeJ v ((encodeJ v).length + 1) []
      (by have := jsize_le_length v; omega) (by constructor)
    simpa using h2
  rw [hp]
  simp [skipWs]

end Agentless

namespace Agentless

/-! ## Python semantics helpers -/

/-- Python truthiness of a decoded JSON value. -/
def pyTruthy : Json → Bool
  | .null => false
  | .bool b => b
  | .num n => n != 0
  | .str s => s != ""
  | .arr xs => !xs.isEmpty
  | .obj kvs => !kvs.isEmpty

/-- Binding of a key in a decoded object (model of a Python dict lookup). -/
def dlookup (k : String) : List (String × Json) → Option Json
  | [] => none
  | (k', v) :: rest => if k' = k then some v else dlookup k rest

/-- Model of Python `d.get(key, default)`; `none` models the `AttributeError`
raised when the receiver is not a dict. -/
def dictGetD (j : Json) (k : String) (default : Json) : Option Json :=
  match j with
  | .obj kvs => some ((dlookup k kvs).getD default)
  | _ => none

/-- Model of a Python numeric-string coercion (optional sign and digits). -/
def pyStrToInt (s : String) : Option Int :=
  match parseIntTok s.toList with
  | some (n, []) => some n
  | _ => none

/-- Model of Python `float(...)` applied to a decoded JSON value, with numbers
modelled as integers; `none` models the raised `TypeError`/`ValueError` on
null, arrays, objects and non-numeric strings. -/
def pyFloat : Json → Option Int
  | .num n => some n
  | .bool b => some (if b then 1 else 0)
  | .str s => pyStrToInt s
  | _ => none

/-- Model of Python `int(...)` applied to a decoded JSON value. -/
def pyInt : Json → Option Int
  | .num n => some n
  | .bool b => some (if b then 1 else 0)
  | .str s => pyStrToInt s
  | _ => none

/-- Model of Python `str(...)` applied to a decoded JSON value. -/
def pyStr : Json → String
  | .str s => s
  | .null => "None"
  | .bool true => "True"
  | .bool false => "False"
  | .num n => toString n
  | v => jsonEncode v

/-! ## Configuration and host model -/

/-- SSH connection profile (`SSHConfig`). -/
structure SSHConfig where
  username : String
  password : Option String := none
  private_key : Option String := none
  port : Nat := 22
deriving Repr, DecidableEq

/-- WinRM connection profile (`WinRMConfig`). -/
structure WinRMConfig where
  username : String
  password : String
  scheme : String := "http"
  port : Nat := 5985
  verify_ssl : Bool := false
deriving Repr, DecidableEq

/-- A monitored host (`Host`). -/
structure Host where
  name : String
  ip : String
  os : String
  ssh : Option SSHConfig := none
  winrm : Option WinRMConfig := none
deriving Repr, DecidableEq

/-! ## The store (`metrics.db` schema of `init_db`) -/

/-- A row of the `hosts` table. -/
structure HostRow where
  id : Nat
  name : String
  ip : String
  os : String
deriving Repr, DecidableEq

/-- A row of the `samples` table; all metric columns are nullable. -/
structure SampleRow where
  host_id : Nat
  ts : Int
  cpu : Option Int
  mem_total : Option Int
  mem_avail : Option Int
  uptime : Option Int
  latency_ms : Option Int
  net_rx_kbps : Option Int
  net_tx_kbps : Option Int
deriving Repr, DecidableEq

/-- A row of the `disks` table. -/
structure DiskRow where
  host_id : Nat
  ts : Int
  device : String
  used_percent : Int
  size_bytes : Int
  free_bytes : Int
  mount : String
deriving Repr, DecidableEq

/-- A row of the `extras` table. -/
structure ExtrasRow where
  host_id : Nat
  ts : Int
  payload : String
deriving Repr, DecidableEq

/-- The database: one list per table, rows in insertion order; `nextHostId`
models the AUTOINCREMENT counter of `hosts.id`. -/
structure Store where
  hosts : List HostRow
  nextHostId : Nat
  samples : List SampleRow
  disks : List DiskRow
  extras : List ExtrasRow
deriving Repr, DecidableEq

/-- A fresh database, as left by `init_db`. -/
def emptyStore : Store := ⟨[], 0, [], [], []⟩

/-- `INSERT OR IGNORE INTO hosts(name, ip, os)` under the `UNIQUE` constraint
on `name` (`AgentlessPoller.__init__`). -/
def registerHost (st : Store) (name ip os : String) : Store :=
  if st.hosts.any (fun h => h.name == name) then st
  else { st with
    hosts := st.hosts ++ [⟨st.nextHostId, name, ip, os⟩],
    nextHostId := st.nextHostId + 1 }

/-- `SELECT id FROM hosts WHERE name=:n` with `scalar_one()`; `none` models the
error raised when the host is absent. -/
def hostIdByName (st : Store) (name : String) : Option Nat :=
  (st.hosts.find? (fun h => h.name == name)).map (fun h => h.id)

/-! ## Execution backends and retry -/

/-- Result of one remote execution. -/
inductive ExecResult where
  | ok (out : String)
  | err (msg : String)
deriving Repr, DecidableEq

/-- Outcome of one connect+execute attempt of `SSHClient.run`: either an
exception during connect or exec, or the captured stdout/stderr text. -/
inductive AttemptOutcome where
  | raised (msg : String)
  | streams (out err : String)
deriving Repr, DecidableEq

/-- The body of `SSHClient.run`: error output with no standard output fails. -/
def runAttempt : AttemptOutcome → ExecResult
  | .raised m => .err m
  | .streams out err => if err ≠ "" ∧ out = "" then .err err else .ok out

/-- One WinRM `run_ps` response. -/
structure PSResult where
  status_code : Int
  std_out : String
  std_err : String
deriving Repr, DecidableEq

/-- The body of `WinRMClient.run_ps`: a nonzero status code fails. -/
def runPsAttempt (r : PSResult) : ExecResult :=
  if r.status_code ≠ 0 then .err r.std_err else .ok r.std_out

/-- tenacity `retry(stop=stop_after_attempt(..), wait=wait_fixed(wait))`:
`attempt i` is the outcome of the `i`-th try (0-based).  Returns the surfaced
result, the list of delays slept between tries, and the number of tries made;
`k` counts the retries still allowed. -/
def retryGo (attempt : Nat → ExecResult) (wait : Nat) :
    Nat → Nat → ExecResult × List Nat × Nat
  | i, 0 => (attempt i, [], 1)
  | i, k + 1 =>
    match attempt i with
    | .ok out => (.ok out, [], 1)
    | .err _ =>
      let r := retryGo attempt wait (i + 1) k
      (r.1, wait :: r.2.1, r.2.2 + 1)

/-- The bounded retry loop: `stopAfter` tries in total. -/
def retryFixed (stopAfter wait : Nat) (attempt : Nat → ExecResult) :
    ExecResult × List Nat × Nat :=
  retryGo attempt wait 0 (stopAfter - 1)

/-- `SSHClient.run`: the connect+execute body under
`retry(stop=stop_after_attempt(2), wait=wait_fixed(1))`. -/
def SSHClient.run (attempts : Nat → AttemptOutcome) : ExecResult × List Nat × Nat :=
  retryFixed 2 1 (fun i => runAttempt (attempts i))

/-- `WinRMClient.run_ps`: the execute body under
`retry(stop=stop_after_attempt(2), wait=wait_fixed(1))`. -/
def WinRMClient.run_ps (attempts : Nat → PSResult) : ExecResult × List Nat × Nat :=
  retryFixed 2 1 (fun i => runPsAttempt (attempts i))

end Agentless

namespace Agentless

/-! ## The per-cycle pipeline (`AgentlessPoller.poll_once`) -/

/-- The local variables of `poll_once` read by the commit, as left by the
`try` block (initialized at lines 340-343 of the source). -/
structure CollectVars where
  cpu : Option Int := none
  mem_total : Option Int := none
  mem_avail : Option Int := none
  uptime : Option Int := none
  net_rx : Option Int := none
  net_tx : Option Int := none
  disks : Json := .arr []
  extras_payload : Option String := none
deriving Repr

/-- The variable state before the `try` block runs. -/
def initVars : CollectVars := {}

/-- One assignment of the `try` block: a failing right-hand side raises,
so the block ends with the variables assigned so far (`v`). -/
def step {α : Type} (x : Option α) (v : CollectVars) (k : α → CollectVars × Bool) :
    CollectVars × Bool :=
  match x with
  | none => (v, false)
  | some a => k a

/-- The `try` block of `poll_once` for a linux host whose execution returned
`raw` (source lines 350-362): `json.loads`, then sequential extraction with
partial-state semantics on a raised coercion error.  The Bool is true when
every step succeeded (the `except` handler was not reached). -/
def collectLinux (raw : String) : CollectVars × Bool :=
  match jsonParse raw with
  | none => (initVars, false)
  | some data =>
    step (dictGetD data "cpu_percent" (.num 0) >>= pyFloat) initVars fun c =>
    let v1 : CollectVars := { initVars with cpu := some c }
    step (dictGetD data "mem_total_bytes" (.num 0) >>= pyInt) v1 fun mt =>
    let v2 := { v1 with mem_total := some mt }
    step (dictGetD data "mem_available_bytes" (.num 0) >>= pyInt) v2 fun ma =>
    let v3 := { v2 with mem_avail := some ma }
    step (dictGetD data "uptime_seconds" (.num 0) >>= pyInt) v3 fun up =>
    let v4 := { v3 with uptime := some up }
    step (dictGetD data "disks" (.arr [])) v4 fun dsk =>
    let v5 := { v4 with disks := dsk }
    step (dictGetD data "extras" (.obj [])) v5 fun extras =>
    step (dictGetD extras "net" (.obj [])) v5 fun net =>
    step (if pyTruthy net then (dictGetD net "total_rx_kbps" (.num 0) >>= pyFloat).map some
          else some none) v5 fun rx =>
    let v6 := { v5 with net_rx := rx }
    step (if pyTruthy net then (dictGetD net "total_tx_kbps" (.num 0) >>= pyFloat).map some
          else some none) v6 fun tx =>
    let v7 := { v6 with net_tx := tx }
    ({ v7 with extras_payload := some (jsonEncode extras) }, true)

/-- The disk fields coerced by the commit loop (source lines 381-388); `none`
models a raised coercion/attribute error inside the transaction. -/
structure DiskFields where
  device : String
  used_percent : Int
  size_bytes : Int
  free_bytes : Int
  mount : String
deriving Repr, DecidableEq

/-- Coerce one element of the decoded `disks` list into a row's fields. -/
def diskFields : Json → Option DiskFields
  | .obj kvs => do
    let upct ← pyFloat ((dlookup "used_percent" kvs).getD (.num 0))
    let sz ← pyInt ((dlookup "size_bytes" kvs).getD (.num 0))
    let fr ← pyInt ((dlookup "free_bytes" kvs).getD (.num 0))
    some ⟨pyStr ((dlookup "device" kvs).getD .null), upct, sz, fr,
      pyStr ((dlookup "mount" kvs).getD (.str ""))⟩
  | _ => none

/-- Decidable check that the commit's disk-row loop succeeds on these decoded
disks (`if disks:` is falsy, or they form a list of coercible records). -/
def disksOkB (disks : Json) : Bool :=
  !(pyTruthy disks) ||
    (match disks with
     | .arr ds => ds.all (fun d => (diskFields d).isSome)
     | .null => false
     | .bool _ => false
     | .num _ => false
     | .str _ => false
     | .obj _ => false)

/-- The commit's disk loop (`for d in disks: INSERT ...`): coerce and insert
each entry in order; a failing coercion raises (`none`). -/
def insertDisks (hid : Nat) (ts : Int) : List Json → Option (List DiskRow)
  | [] => some []
  | d :: ds => do
    let fl ← diskFields d
    let rest ← insertDisks hid ts ds
    some (⟨hid, ts, fl.device, fl.used_percent, fl.size_bytes,
      fl.free_bytes, fl.mount⟩ :: rest)

/-- The per-host per-cycle transaction (source lines 372-392): insert the
sample row, zero or more disk rows, and at most one extras row.  `none` models
an exception inside the transaction: SQLAlchemy rolls the whole transaction
back (no rows persist) and the exception escapes `poll_once`.  Iterating a
truthy non-list (or a list of non-records) raises. -/
def commitCycle (st : Store) (hid : Nat) (ts : Int) (latency : Option Int)
    (v : CollectVars) : Option Store :=
  let sample : SampleRow :=
    ⟨hid, ts, v.cpu, v.mem_total, v.mem_avail, v.uptime, latency, v.net_rx, v.net_tx⟩
  let diskRows : Option (List DiskRow) :=
    if pyTruthy v.disks then
      match v.disks with
      | .arr ds => insertDisks hid ts ds
      | _ => none
    else some []
  match diskRows with
  | none => none
  | some drows =>
    let newExtras : List ExtrasRow :=
      match v.extras_payload with
      | some p => if p ≠ "" then [⟨hid, ts, p⟩] else []
      | none => []
    some { st with
      samples := st.samples ++ [sample],
      disks := st.disks ++ drows,
      extras := st.extras ++ newExtras }

/-- The environment of one `poll_once` call: the wall clock
(`int(time.time())`), the `tcp_ping` result, and the outcomes of the
successive SSH connect+execute attempts. -/
structure PollEnv where
  ts : Int
  latency : Option Int
  attempts : Nat → AttemptOutcome

/-- The collect variables `poll_once` holds when it reaches the commit: the
linux branch runs the retried execution and the `try` block; every failure is
caught, leaving the initial null state.  (A host's `os` is a single string, so
the linux and windows branches are mutually exclusive.) -/
def pollVars (host : Host) (env : PollEnv) : CollectVars :=
  if host.os = "linux" ∧ host.ssh.isSome then
    match (SSHClient.run env.attempts).1 with
    | .ok raw => (collectLinux raw).1
    | .err _ => initVars
  else initVars

/-- One `poll_once(host)` call against store `st` under environment `env`.
The windows-with-WinRM branch returns before the commit (source line 366).
`none` models an exception escaping `poll_once` (host lookup failure, or an
error inside the commit transaction). -/
def poll_once (st : Store) (host : Host) (env : PollEnv) : Option Store :=
  if host.os = "windows" ∧ host.winrm.isSome then some st
  else
    match hostIdByName st host.name with
    | none => none
    | some hid => commitCycle st hid env.ts env.latency (pollVars host env)

/-! ## Query API -/

/-- Row order used by `ORDER BY ts ASC` on `samples`. -/
def sampleLE (a b : SampleRow) : Prop := a.ts ≤ b.ts

instance : DecidableRel sampleLE := fun a b => by unfold sampleLE; infer_instance

instance : IsTotal SampleRow sampleLE := ⟨fun a b => le_total a.ts b.ts⟩

instance : IsTrans SampleRow sampleLE := ⟨fun _ _ _ h1 h2 => le_trans h1 h2⟩

/-- Row order used by `ORDER BY ts ASC` on `disks`. -/
def diskLE (a b : DiskRow) : Prop := a.ts ≤ b.ts

instance : DecidableRel diskLE := fun a b => by unfold diskLE; infer_instance

instance : IsTotal DiskRow diskLE := ⟨fun a b => le_total a.ts b.ts⟩

instance : IsTrans DiskRow diskLE := ⟨fun _ _ _ h1 h2 => le_trans h1 h2⟩

/-- `GET /api/host/{host_id}/series` (`api_series`): cutoff
`t_from = now - minutes*60`, the host's rows with `ts ≥ t_from`, ordered by
ascending `ts`. -/
def api_series (st : Store) (host_id : Nat) (minutes now : Int) :
    List SampleRow × List DiskRow :=
  let t_from := now - minutes * 60
  (List.insertionSort sampleLE
      (st.samples.filter (fun s => s.host_id == host_id && decide (t_from ≤ s.ts))),
    List.insertionSort diskLE
      (st.disks.filter (fun d => d.host_id == host_id && decide (t_from ≤ d.ts))))

/-- The host's sample rows. -/
def hostSamples (st : Store) (hid : Nat) : List SampleRow :=
  st.samples.filter (fun s => s.host_id == hid)

/-- The host's extras rows. -/
def hostExtras (st : Store) (hid : Nat) : List ExtrasRow :=
  st.extras.filter (fun e => e.host_id == hid)

/-- The host's disk rows. -/
def hostDisks (st : Store) (hid : Nat) : List DiskRow :=
  st.disks.filter (fun d => d.host_id == hid)

/-- `ORDER BY ts DESC LIMIT 1` on samples: a row with the maximal `ts`
(the latest-inserted row among ties). -/
def lastSampleRow : List SampleRow → Option SampleRow
  | [] => none
  | r :: rs =>
    match lastSampleRow rs with
    | none => some r
    | some m => if r.ts > m.ts then some r else some m

/-- `ORDER BY ts DESC LIMIT 1` on extras. -/
def lastExtrasRow : List ExtrasRow → Option ExtrasRow
  | [] => none
  | r :: rs =>
    match lastExtrasRow rs with
    | none => some r
    | some m => if r.ts > m.ts then some r else some m

/-- `SELECT MAX(ts) FROM disks WHERE host_id=:hid` (`none` is SQL NULL). -/
def maxDiskTs : List DiskRow → Option Int
  | [] => none
  | r :: rs =>
    match maxDiskTs rs with
    | none => some r.ts
    | some m => some (max r.ts m)

/-- The disk rows of `latest`: the host's rows at the maximal `ts`. -/
def latestDisks (st : Store) (hid : Nat) : List DiskRow :=
  match maxDiskTs (hostDisks st hid) with
  | none => []
  | some m => (hostDisks st hid).filter (fun d => d.ts == m)

/-- `GET /api/host/{host_id}/latest` (`api_latest`): the latest sample, the
decoded latest extras payload (`{}` when there is none), and the disk rows at
the maximal `ts`.  `none` models a `json.loads` failure on the stored
payload. -/
def api_latest (st : Store) (host_id : Nat) :
    Option (Option SampleRow × Json × List DiskRow) :=
  let last := lastSampleRow (hostSamples st host_id)
  let ex := (lastExtrasRow (hostExtras st host_id)).map (fun e => e.payload)
  let disks := latestDisks st host_id
  match ex with
  | some p =>
    if p ≠ "" then (jsonParse p).map (fun e => (last, e, disks))
    else some (last, .obj [], disks)
  | none => some (last, .obj [], disks)

end Agentless

namespace Agentless

/-! ## Shared lemmas about the pipeline and queries -/

theorem jsonEncode_ne_empty (v : Json) : jsonEncode v ≠ "" := by
  obtain ⟨c, l, h, _⟩ := encodeJ_head v
  intro heq
  have h2 : encodeJ v = [] := congrArg String.data heq
  rw [h] at h2
  exact List.noConfusion h2

theorem insertDisks_isSome (hid : Nat) (ts : Int) (ds : List Json)
    (h : ∀ d ∈ ds, (diskFields d).isSome = true) :
    ∃ rows, insertDisks hid ts ds = some rows := by
  induction ds with
  | nil => exact ⟨[], rfl⟩
  | cons d ds ih =>
    obtain ⟨fl, hfl⟩ := Option.isSome_iff_exists.mp (h d (List.mem_cons_self d ds))
    obtain ⟨rows, hrows⟩ := ih (fun x hx => h x (List.mem_cons_of_mem d hx))
    refine ⟨⟨hid, ts, fl.device, fl.used_percent, fl.size_bytes,
      fl.free_bytes, fl.mount⟩ :: rows, ?_⟩
    simp only [insertDisks, hfl, hrows, Option.bind_eq_bind, Option.some_bind]

/-- A commit whose decoded disks pass `disksOkB` succeeds, appending exactly
one sample row (and some disk and extras rows). -/
theorem commitCycle_of_disksOk (st : Store) (hid : Nat) (ts : Int)
    (lat : Option Int) (v : CollectVars) (h : disksOkB v.disks = true) :
    ∃ drows : List DiskRow,
      commitCycle st hid ts lat v = some { st with
        samples := st.samples ++
          [⟨hid, ts, v.cpu, v.mem_total, v.mem_avail, v.uptime, lat,
            v.net_rx, v.net_tx⟩],
        disks := st.disks ++ drows,
        extras := st.extras ++
          (match v.extras_payload with
            | some p => if p ≠ "" then [⟨hid, ts, p⟩] else []
            | none => []) } := by
  unfold commitCycle
  by_cases ht : pyTruthy v.disks = true
  · rcases hdk : v.disks with _ | b | n | s | ds | kvs
    all_goals rw [hdk] at ht h
    · exact absurd ht (by simp [pyTruthy])
    · rw [disksOkB] at h
      simp [ht] at h
    · rw [disksOkB] at h
      simp [ht] at h
    · rw [disksOkB] at h
      simp [ht] at h
    · rw [disksOkB] at h
      simp only [ht, Bool.not_true, Bool.false_or, List.all_eq_true] at h
      obtain ⟨rows, hrows⟩ := insertDisks_isSome hid ts ds h
      refine ⟨rows, ?_⟩
      simp [ht, hrows]
    · rw [disksOkB] at h
      simp [ht] at h
  · refine ⟨[], ?_⟩
    rw [if_neg ht]

theorem lastSampleRow_eq_nil (l : List SampleRow) (h : lastSampleRow l = none) :
    l = [] := by
  cases l with
  | nil => rfl
  | cons r rs =>
    exfalso
    cases hm : lastSampleRow rs with
    | none =>
      simp only [lastSampleRow, hm] at h
      exact Option.noConfusion h
    | some m =>
      simp only [lastSampleRow, hm] at h
      by_cases hgt : r.ts > m.ts
      · rw [if_pos hgt] at h
        exact Option.noConfusion h
      · rw [if_neg hgt] at h
        exact Option.noConfusion h

theorem lastSampleRow_mem (l : List SampleRow) (s : SampleRow)
    (h : lastSampleRow l = some s) : s ∈ l := by
  induction l generalizing s with
  | nil => simp [lastSampleRow] at h
  | cons r rs ih =>
    cases hm : lastSampleRow rs with
    | none =>
      simp only [lastSampleRow, hm] at h
      simp at h
      simp [h]
    | some m =>
      simp only [lastSampleRow, hm] at h
      by_cases hgt : r.ts > m.ts
      · rw [if_pos hgt] at h
        simp at h
        simp [h]
      · rw [if_neg hgt] at h
        simp at h
        subst h
        exact List.mem_cons_of_mem r (ih m hm)

theorem lastSampleRow_max (l : List SampleRow) (s : SampleRow)
    (h : lastSampleRow l = some s) : ∀ r ∈ l, r.ts ≤ s.ts := by
  induction l generalizing s with
  | nil => simp [lastSampleRow] at h
  | cons r rs ih =>
    cases hm : lastSampleRow rs with
    | none =>
      have hnil := lastSampleRow_eq_nil rs hm
      subst hnil
      simp only [lastSampleRow, hm] at h
      simp at h
      subst h
      intro x hx
      simp at hx
      subst hx
      omega
    | some m =>
      simp only [lastSampleRow, hm] at h
      intro x hx
      rcases List.mem_cons.mp hx with rfl | hx'
      · by_cases hgt : x.ts > m.ts
        · rw [if_pos hgt] at h
          simp at h
          subst h
          omega
        · rw [if_neg hgt] at h
          simp at h
          subst h
          omega
      · have hmax := ih m hm x hx'
        by_cases hgt : r.ts > m.ts
        · rw [if_pos hgt] at h
          simp at h
          subst h
          omega
        · rw [if_neg hgt] at h
          simp at h
          subst h
          omega

theorem lastSampleRow_isSome (l : List SampleRow) (h : l ≠ []) :
    ∃ s, lastSampleRow l = some s := by
  cases hm : lastSampleRow l with
  | none => exact absurd (lastSampleRow_eq_nil l hm) h
  | some s => exact ⟨s, rfl⟩

theorem lastExtrasRow_eq_nil (l : List ExtrasRow) (h : lastExtrasRow l = none) :
    l = [] := by
  cases l with
  | nil => rfl
  | cons r rs =>
    exfalso
    cases hm : lastExtrasRow rs with
    | none =>
      simp only [lastExtrasRow, hm] at h
      exact Option.noConfusion h
    | some m =>
      simp only [lastExtrasRow, hm] at h
      by_cases hgt : r.ts > m.ts
      · rw [if_pos hgt] at h
        exact Option.noConfusion h
      · rw [if_neg hgt] at h
        exact Option.noConfusion h

theorem lastExtrasRow_mem (l : List ExtrasRow) (e : ExtrasRow)
    (h : lastExtrasRow l = some e) : e ∈ l := by
  induction l generalizing e with
  | nil => simp [lastExtrasRow] at h
  | cons r rs ih =>
    cases hm : lastExtrasRow rs with
    | none =>
      simp only [lastExtrasRow, hm] at h
      simp at h
      simp [h]
    | some m =>
      simp only [lastExtrasRow, hm] at h
      by_cases hgt : r.ts > m.ts
      · rw [if_pos hgt] at h
        simp at h
        simp [h]
      · rw [if_neg hgt] at h
        simp at h
        subst h
        exact List.mem_cons_of_mem r (ih m hm)

theorem lastExtrasRow_max (l : List ExtrasRow) (e : ExtrasRow)
    (h : lastExtrasRow l = some e) : ∀ r ∈ l, r.ts ≤ e.ts := by
  induction l generalizing e with
  | nil => simp [lastExtrasRow] at h
  | cons r rs ih =>
    cases hm : lastExtrasRow rs with
    | none =>
      have hnil := lastExtrasRow_eq_nil rs hm
      subst hnil
      simp only [lastExtrasRow, hm] at h
      simp at h
      subst h
      intro x hx
      simp at hx
      subst hx
      omega
    | some m =>
      simp only [lastExtrasRow, hm] at h
      intro x hx
      rcases List.mem_cons.mp hx with rfl | hx'
      · by_cases hgt : x.ts > m.ts
        · rw [if_pos hgt] at h
          simp at h
          subst h
          omega
        · rw [if_neg hgt] at h
          simp at h
          subst h
          omega
      · have hmax := ih m hm x hx'
        by_cases hgt : r.ts > m.ts
        · rw [if_pos hgt] at h
          simp at h
          subst h
          omega
        · rw [if_neg hgt] at h
          simp at h
          subst h
          omega

/-- Appending a row whose `ts` dominates the list makes it the latest row
(a tie goes to the later-inserted row). -/
theorem lastExtrasRow_append_max (l : List ExtrasRow) (a : ExtrasRow)
    (h : ∀ x ∈ l, x.ts ≤ a.ts) : lastExtrasRow (l ++ [a]) = some a := by
  induction l with
  | nil => simp [lastExtrasRow]
  | cons r rs ih =>
    have hih := ih (fun x hx => h x (List.mem_cons_of_mem r hx))
    rw [List.cons_append]
    simp only [lastExtrasRow, hih]
    rw [if_neg (by have := h r (List.mem_cons_self r rs); omega)]

theorem maxDiskTs_eq_nil (l : List DiskRow) (h : maxDiskTs l = none) : l = [] := by
  cases l with
  | nil => rfl
  | cons r rs =>
    exfalso
    cases hm : maxDiskTs rs with
    | none =>
      simp only [maxDiskTs, hm] at h
      exact Option.noConfusion h
    | some m =>
      simp only [maxDiskTs, hm] at h
      exact Option.noConfusion h

theorem maxDiskTs_ge (l : List DiskRow) (m : Int) (h : maxDiskTs l = some m) :
    ∀ r ∈ l, r.ts ≤ m := by
  induction l generalizing m with
  | nil => simp [maxDiskTs] at h
  | cons r rs ih =>
    cases hm : maxDiskTs rs with
    | none =>
      have hnil := maxDiskTs_eq_nil rs hm
      subst hnil
      simp only [maxDiskTs, hm] at h
      simp at h
      intro x hx
      simp at hx
      subst hx
      omega
    | some m' =>
      simp only [maxDiskTs, hm] at h
      simp at h
      intro x hx
      rcases List.mem_cons.mp hx with rfl | hx'
      · have h2 := le_max_left x.ts m'
        omega
      · have h2 := ih m' hm x hx'
        have h3 := le_max_right r.ts m'
        omega

theorem maxDiskTs_attained (l : List DiskRow) (m : Int) (h : maxDiskTs l = some m) :
    ∃ r ∈ l, r.ts = m := by
  induction l generalizing m with
  | nil => simp [maxDiskTs] at h
  | cons r rs ih =>
    cases hm : maxDiskTs rs with
    | none =>
      simp only [maxDiskTs, hm] at h
      simp at h
      exact ⟨r, List.mem_cons_self r rs, by omega⟩
    | some m' =>
      simp only [maxDiskTs, hm] at h
      simp at h
      by_cases hge : m' ≤ r.ts
      · have h2 := max_eq_left hge
        exact ⟨r, List.mem_cons_self r rs, by omega⟩
      · obtain ⟨x, hx, hxeq⟩ := ih m' hm
        have h2 := max_eq_right (le_of_not_le hge)
        exact ⟨x, List.mem_cons_of_mem r hx, by omega⟩

end Agentless

namespace Agentless

/-! ## Claim theorems -/

/-- C3: both execution backends retry the entire connect+execute body with
exactly 2 attempts total and a fixed 1-second delay between attempts; when
both attempts fail, the last error is surfaced to the caller. -/
theorem c3_retry_two_attempts_fixed_delay :
    (∀ (a : Nat → AttemptOutcome) (e0 e1 : String),
      runAttempt (a 0) = .err e0 → runAttempt (a 1) = .err e1 →
      SSHClient.run a = (.err e1, [1], 2)) ∧
    (∀ (b : Nat → PSResult) (e0 e1 : String),
      runPsAttempt (b 0) = .err e0 → runPsAttempt (b 1) = .err e1 →
      WinRMClient.run_ps b = (.err e1, [1], 2)) := by
  constructor
  · intro a e0 e1 h0 h1
    simp [SSHClient.run, retryFixed, retryGo, h0, h1]
  · intro b e0 e1 h0 h1
    simp [WinRMClient.run_ps, retryFixed, retryGo, h0, h1]

/-- C3 witness: concrete always-failing backends make exactly 2 attempts with
one 1-second delay and surface the second attempt's error. -/
theorem c3_retry_witness :
    SSHClient.run (fun _ => .raised "connect refused")
        = (.err "connect refused", [1], 2) ∧
    WinRMClient.run_ps (fun _ => ⟨1, "", "access denied"⟩)
        = (.err "access denied", [1], 2) :=
  ⟨c3_retry_two_attempts_fixed_delay.1 _ "connect refused" "connect refused" rfl rfl,
    c3_retry_two_attempts_fixed_delay.2 _ "access denied" "access denied"
      (by simp [runPsAttempt]) (by simp [runPsAttempt])⟩

/-- `hosts.name` is pairwise distinct. -/
def uniqueNames (hs : List HostRow) : Prop :=
  hs.Pairwise (fun a b => a.name ≠ b.name)

/-- Registering a list of `(name, ip, os)` descriptors in order, as
`AgentlessPoller.__init__` does on startup. -/
def registerAll (st : Store) (regs : List (String × String × String)) : Store :=
  regs.foldl (fun s r => registerHost s r.1 r.2.1 r.2.2) st

theorem registerHost_uniqueNames (st : Store) (name ip os : String)
    (h : uniqueNames st.hosts) : uniqueNames (registerHost st name ip os).hosts := by
  unfold registerHost
  split
  · exact h
  · rename_i hany
    unfold uniqueNames at h ⊢
    rw [List.pairwise_append]
    refine ⟨h, List.pairwise_singleton _ _, ?_⟩
    intro a ha b hb
    simp only [List.mem_singleton] at hb
    subst hb
    intro hEq
    apply hany
    rw [List.any_eq_true]
    exact ⟨a, ha, by simp [hEq]⟩

/-- C9: registration is idempotent and name-unique: registering a name that is
already present leaves the store unchanged (no second identity), and any
sequence of registrations preserves uniqueness of `hosts.name`. -/
theorem c9_registration_idempotent_unique :
    (∀ (st : Store) (name ip os : String),
      (∃ h ∈ st.hosts, h.name = name) → registerHost st name ip os = st) ∧
    (∀ (st : Store) (regs : List (String × String × String)),
      uniqueNames st.hosts → uniqueNames (registerAll st regs).hosts) := by
  constructor
  · intro st name ip os ⟨h, hmem, hname⟩
    unfold registerHost
    rw [if_pos]
    rw [List.any_eq_true]
    exact ⟨h, hmem, by simp [hname]⟩
  · intro st regs
    induction regs generalizing st with
    | nil => exact fun h => h
    | cons r regs ih =>
      intro h
      exact ih _ (registerHost_uniqueNames st r.1 r.2.1 r.2.2 h)

/-- C9 witness: re-registering `web-1` changes nothing, and a concrete
registration sequence with a duplicate keeps `hosts.name` unique. -/
theorem c9_registration_witness :
    registerHost (registerHost emptyStore "web-1" "10.0.0.1" "linux")
        "web-1" "10.0.0.9" "linux"
      = registerHost emptyStore "web-1" "10.0.0.1" "linux" ∧
    uniqueNames (registerAll emptyStore
      [("web-1", "10.0.0.1", "linux"), ("win-1", "10.0.0.2", "windows"),
        ("web-1", "10.0.0.1", "linux")]).hosts :=
  ⟨c9_registration_idempotent_unique.1 _ "web-1" "10.0.0.9" "linux"
      ⟨⟨0, "web-1", "10.0.0.1", "linux"⟩, by decide, rfl⟩,
    c9_registration_idempotent_unique.2 emptyStore _ (by simp [uniqueNames, emptyStore])⟩

/-- C2: when a linux host's collection fails after the retries, `poll_once`
still commits exactly one sample row whose metric columns are all null, whose
`ts` is the cycle's timestamp, and whose `latency_ms` comes from the
independent probe; nothing raises out of the cycle and no disk or extras rows
are written. -/
theorem c2_failed_collection_null_sample (st : Store) (host : Host) (env : PollEnv)
    (hid : Nat) (hos : host.os = "linux") (hssh : host.ssh.isSome = true)
    (hreg : hostIdByName st host.name = some hid)
    (e : String) (hfail : (SSHClient.run env.attempts).1 = .err e) :
    poll_once st host env = some { st with
      samples := st.samples ++
        [⟨hid, env.ts, none, none, none, none, env.latency, none, none⟩] } := by
  unfold poll_once
  rw [if_neg (by simp [hos])]
  rw [hreg]
  unfold pollVars
  rw [if_pos ⟨hos, hssh⟩, hfail]
  unfold commitCycle initVars
  simp [pyTruthy]

def c2Store : Store := registerHost emptyStore "web-1" "10.0.0.1" "linux"

def c2Host : Host :=
  ⟨"web-1", "10.0.0.1", "linux", some ⟨"root", some "pw", none, 22⟩, none⟩

def c2Env : PollEnv := ⟨1000, some 5, fun _ => .raised "connect timeout"⟩

/-- C2 witness: a concrete cycle whose SSH attempts all raise still commits
the all-null sample with the cycle's timestamp and the probe's latency. -/
theorem c2_failed_collection_witness :
    poll_once c2Store c2Host c2Env = some { c2Store with
      samples := c2Store.samples ++
        [⟨0, 1000, none, none, none, none, some 5, none, none⟩] } :=
  c2_failed_collection_null_sample c2Store c2Host c2Env 0 rfl rfl (by decide)
    "connect timeout" (by decide)

end Agentless

namespace Agentless

def c1WinHost : Host :=
  ⟨"win-1", "10.0.0.2", "windows", none, some ⟨"admin", "pw", "http", 5985, false⟩⟩

def c1WinStore : Store := registerHost emptyStore "win-1" "10.0.0.2" "windows"

def c1WinEnv : PollEnv := ⟨1000, some 7, fun _ => .raised "unused"⟩

/-- C1 counterexample: a cycle for a registered Windows host with a WinRM
profile returns before the commit, so zero sample rows (not exactly one) are
committed for that host in that cycle. -/
theorem c1_counterexample_windows_no_row :
    poll_once c1WinStore c1WinHost c1WinEnv = some c1WinStore ∧
    (hostSamples c1WinStore 0).length = 0 := by
  constructor
  · rfl
  · rfl

/-- C1 (amended): for every registered host except a Windows host with a WinRM
profile, a cycle whose decoded disks commit cleanly appends exactly one sample
row for that host, carrying that cycle's timestamp — success or failure alike;
a Windows host with a WinRM profile commits nothing. -/
theorem c1_amended_one_sample_per_cycle (st : Store) (host : Host) (env : PollEnv)
    (hid : Nat) (hreg : hostIdByName st host.name = some hid)
    (hwin : ¬(host.os = "windows" ∧ host.winrm.isSome = true))
    (hdisks : disksOkB (pollVars host env).disks = true) :
    ∃ st' : Store, poll_once st host env = some st' ∧
      ∃ row : SampleRow, st'.samples = st.samples ++ [row] ∧
        row.host_id = hid ∧ row.ts = env.ts := by
  unfold poll_once
  rw [if_neg (by simpa using hwin)]
  obtain ⟨drows, hcommit⟩ :=
    commitCycle_of_disksOk st hid env.ts env.latency (pollVars host env) hdisks
  simp only [hreg, hcommit]
  exact ⟨_, rfl, ⟨hid, env.ts, _, _, _, _, _, _, _⟩, rfl, rfl, rfl⟩

def c1Store : Store := registerHost emptyStore "web-1" "10.0.0.1" "linux"

def c1Host : Host :=
  ⟨"web-1", "10.0.0.1", "linux", some ⟨"root", some "pw", none, 22⟩, none⟩

def c1Env : PollEnv := ⟨2000, none, fun _ => .raised "unreachable"⟩

/-- C1 witness: a concrete non-Windows cycle appends exactly one sample row
carrying the cycle's timestamp. -/
theorem c1_amended_witness :
    ∃ st' : Store, poll_once c1Store c1Host c1Env = some st' ∧
      ∃ row : SampleRow, st'.samples = c1Store.samples ++ [row] ∧
        row.host_id = 0 ∧ row.ts = 2000 :=
  c1_amended_one_sample_per_cycle c1Store c1Host c1Env 0 (by decide)
    (by decide) (by decide)

/-- C5: the series query uses the absolute cutoff `now - minutes*60` and
returns exactly the requested host's sample rows and disk rows with
`ts ≥` the cutoff (a permutation of that filter — no other host's rows and no
row below the cutoff is included, and every qualifying row is), ordered by
ascending `ts`. -/
theorem c5_series_cutoff_exact_sorted (st : Store) (host_id : Nat)
    (minutes now : Int) :
    ((api_series st host_id minutes now).1.Perm
        (st.samples.filter (fun s => s.host_id == host_id
          && decide (now - minutes * 60 ≤ s.ts)))) ∧
    (api_series st host_id minutes now).1.Sorted sampleLE ∧
    (∀ r ∈ (api_series st host_id minutes now).1,
      r.host_id = host_id ∧ now - minutes * 60 ≤ r.ts) ∧
    (∀ r ∈ st.samples, r.host_id = host_id → now - minutes * 60 ≤ r.ts →
      r ∈ (api_series st host_id minutes now).1) ∧
    ((api_series st host_id minutes now).2.Perm
        (st.disks.filter (fun d => d.host_id == host_id
          && decide (now - minutes * 60 ≤ d.ts)))) ∧
    (api_series st host_id minutes now).2.Sorted diskLE ∧
    (∀ r ∈ (api_series st host_id minutes now).2,
      r.host_id = host_id ∧ now - minutes * 60 ≤ r.ts) ∧
    (∀ r ∈ st.disks, r.host_id = host_id → now - minutes * 60 ≤ r.ts →
      r ∈ (api_series st host_id minutes now).2) := by
  have hps : (api_series st host_id minutes now).1.Perm
      (st.samples.filter (fun s => s.host_id == host_id
        && decide (now - minutes * 60 ≤ s.ts))) := by
    simp only [api_series]
    exact List.perm_insertionSort _ _
  have hpd : (api_series st host_id minutes now).2.Perm
      (st.disks.filter (fun d => d.host_id == host_id
        && decide (now - minutes * 60 ≤ d.ts))) := by
    simp only [api_series]
    exact List.perm_insertionSort _ _
  refine ⟨hps, ?_, ?_, ?_, hpd, ?_, ?_, ?_⟩
  · simp only [api_series]
    exact List.sorted_insertionSort _ _
  · intro r hr
    have hmem := (hps.mem_iff).mp hr
    rw [List.mem_filter] at hmem
    have h2 := hmem.2
    simp at h2
    exact ⟨h2.1, by omega⟩
  · intro r hr hhost hts
    apply (hps.mem_iff).mpr
    rw [List.mem_filter]
    exact ⟨hr, by simp [hhost, hts]⟩
  · simp only [api_series]
    exact List.sorted_insertionSort _ _
  · intro r hr
    have hmem := (hpd.mem_iff).mp hr
    rw [List.mem_filter] at hmem
    have h2 := hmem.2
    simp at h2
    exact ⟨h2.1, by omega⟩
  · intro r hr hhost hts
    apply (hpd.mem_iff).mpr
    rw [List.mem_filter]
    exact ⟨hr, by simp [hhost, hts]⟩

end Agentless

namespace Agentless

/-- C6: for a host with at least one recorded cycle, `latest` returns a
sample row with the maximum `ts` among that host's samples; the extras row it
decodes (when present) has the maximum `ts` among that host's extras rows; and
the disk rows are exactly that host's rows sharing the maximum disk `ts` —
only maximal rows, and only rows of that host. -/
theorem c6_latest_returns_max_ts (st : Store) (hid : Nat) :
    ((∃ r ∈ st.samples, r.host_id = hid) →
      ∃ s, lastSampleRow (hostSamples st hid) = some s) ∧
    (∀ s, lastSampleRow (hostSamples st hid) = some s →
      s ∈ st.samples ∧ s.host_id = hid ∧
        ∀ r ∈ st.samples, r.host_id = hid → r.ts ≤ s.ts) ∧
    (∀ e, lastExtrasRow (hostExtras st hid) = some e →
      e ∈ st.extras ∧ e.host_id = hid ∧
        ∀ r ∈ st.extras, r.host_id = hid → r.ts ≤ e.ts) ∧
    (∀ d ∈ latestDisks st hid, d ∈ st.disks ∧ d.host_id = hid ∧
      ∀ r ∈ st.disks, r.host_id = hid → r.ts ≤ d.ts) ∧
    (∀ d ∈ st.disks, d.host_id = hid →
      (∀ r ∈ st.disks, r.host_id = hid → r.ts ≤ d.ts) →
      d ∈ latestDisks st hid) := by
  refine ⟨?_, ?_, ?_, ?_, ?_⟩
  · rintro ⟨r, hr, hhost⟩
    apply lastSampleRow_isSome
    intro hnil
    have : r ∈ hostSamples st hid := by
      rw [hostSamples, List.mem_filter]
      exact ⟨hr, by simp [hhost]⟩
    rw [hnil] at this
    exact absurd this (List.not_mem_nil r)
  · intro s hs
    have hmem := lastSampleRow_mem _ _ hs
    rw [hostSamples, List.mem_filter] at hmem
    refine ⟨hmem.1, by simpa using hmem.2, ?_⟩
    intro r hr hhost
    exact lastSampleRow_max _ _ hs r
      (by rw [hostSamples, List.mem_filter]; exact ⟨hr, by simp [hhost]⟩)
  · intro e he
    have hmem := lastExtrasRow_mem _ _ he
    rw [hostExtras, List.mem_filter] at hmem
    refine ⟨hmem.1, by simpa using hmem.2, ?_⟩
    intro r hr hhost
    exact lastExtrasRow_max _ _ he r
      (by rw [hostExtras, List.mem_filter]; exact ⟨hr, by simp [hhost]⟩)
  · intro d hd
    rw [latestDisks] at hd
    cases hmax : maxDiskTs (hostDisks st hid) with
    | none => rw [hmax] at hd; exact absurd hd (List.not_mem_nil d)
    | some m =>
      rw [hmax] at hd
      rw [List.mem_filter] at hd
      have hmem := hd.1
      have hts : d.ts = m := by simpa using hd.2
      rw [hostDisks, List.mem_filter] at hmem
      refine ⟨hmem.1, by simpa using hmem.2, ?_⟩
      intro r hr hhost
      have := maxDiskTs_ge _ _ hmax r
        (by rw [hostDisks, List.mem_filter]; exact ⟨hr, by simp [hhost]⟩)
      omega
  · intro d hd hhost hmaxd
    have hdmem : d ∈ hostDisks st hid := by
      rw [hostDisks, List.mem_filter]
      exact ⟨hd, by simp [hhost]⟩
    cases hmax : maxDiskTs (hostDisks st hid) with
    | none =>
      have := maxDiskTs_eq_nil _ hmax
      rw [this] at hdmem
      exact absurd hdmem (List.not_mem_nil d)
    | some m =>
      rw [latestDisks, hmax, List.mem_filter]
      refine ⟨hdmem, ?_⟩
      have h1 := maxDiskTs_ge _ _ hmax d hdmem
      obtain ⟨x, hx, hxts⟩ := maxDiskTs_attained _ _ hmax
      have hx2 : x ∈ st.disks ∧ x.host_id = hid := by
        rw [hostDisks, List.mem_filter] at hx
        exact ⟨hx.1, by simpa using hx.2⟩
      have h2 := hmaxd x hx2.1 hx2.2
      simp
      omega

def c6Store : Store :=
  ⟨[⟨0, "web-1", "10.0.0.1", "linux"⟩], 1,
    [⟨0, 10, some 1, some 2, some 3, some 4, some 5, some 6, some 7⟩,
      ⟨0, 20, none, none, none, none, none, none, none⟩],
    [⟨0, 10, "sda", 1, 2, 3, "/"⟩, ⟨0, 20, "sda", 4, 5, 6, "/"⟩,
      ⟨0, 20, "sdb", 7, 8, 9, "/data"⟩],
    [⟨0, 10, "payload"⟩]⟩

/-- C6 witness: on a concrete store with two cycles, `latest` has a sample to
return, and a concrete maximal-`ts` disk row is included in its disk rows. -/
theorem c6_latest_witness :
    (∃ s, lastSampleRow (hostSamples c6Store 0) = some s) ∧
    (⟨0, 20, "sda", 4, 5, 6, "/"⟩ : DiskRow) ∈ latestDisks c6Store 0 :=
  ⟨(c6_latest_returns_max_ts c6Store 0).1
      ⟨⟨0, 20, none, none, none, none, none, none, none⟩, by decide, rfl⟩,
    (c6_latest_returns_max_ts c6Store 0).2.2.2.2 ⟨0, 20, "sda", 4, 5, 6, "/"⟩
      (by decide) rfl (by decide)⟩

def c7StoreA : Store :=
  ⟨[⟨0, "web-1", "10.0.0.1", "linux"⟩], 1,
    [⟨0, 100, some 1, some 2, some 3, some 4, some 5, some 6, some 7⟩], [], []⟩

def c7StoreB : Store := { c7StoreA with hosts := [] }

/-- C7 counterexample: the query endpoints perform no host-existence
validation — emptying the `hosts` table changes neither query's result, and
querying an id registered nowhere returns an ordinary empty result instead of
failing. -/
theorem c7_counterexample_no_host_validation :
    api_series c7StoreA 0 120 1000 = api_series c7StoreB 0 120 1000 ∧
    api_latest c7StoreA 0 = api_latest c7StoreB 0 ∧
    api_latest c7StoreB 99 = some (none, .obj [], []) :=
  ⟨rfl, rfl, rfl⟩

/-- C7 (amended): the query endpoints validate nothing about host existence:
series and latest are computed purely from `samples`, `disks` and `extras`
rows matching the requested id, independently of the `hosts` table (an unknown
host yields an ordinary empty result); the only parameter handling is the
conversion of the `minutes` lookback into the absolute cutoff
`now - minutes*60` inside `api_series`. -/
theorem c7_amended_queries_ignore_hosts (st : Store) (host_id : Nat)
    (minutes now : Int) :
    api_series st host_id minutes now
      = api_series { st with hosts := [] } host_id minutes now ∧
    api_latest st host_id = api_latest { st with hosts := [] } host_id :=
  ⟨rfl, rfl⟩

end Agentless

namespace Agentless

/-- The `extras` object extracted at source line 358 (`data.get("extras", {})`). -/
def extrasOf (kvs : List (String × Json)) : Json :=
  (dlookup "extras" kvs).getD (.obj [])

/-- The `net` lookup at source line 359 (`extras.get("net", {})`); fails when
`extras` is not a dict. -/
def netOf (kvs : List (String × Json)) : Option Json :=
  dictGetD (extrasOf kvs) "net" (.obj [])

/-- The `net_rx` expression at source line 360. -/
def rxOf (kvs : List (String × Json)) : Option (Option Int) :=
  netOf kvs >>= fun net =>
    if pyTruthy net then (dictGetD net "total_rx_kbps" (.num 0) >>= pyFloat).map some
    else some none

/-- The `net_tx` expression at source line 361. -/
def txOf (kvs : List (String × Json)) : Option (Option Int) :=
  netOf kvs >>= fun net =>
    if pyTruthy net then (dictGetD net "total_tx_kbps" (.num 0) >>= pyFloat).map some
    else some none

def c4BadRaw : String := jsonEncode (.obj [("cpu_percent", .null)])

/-- C4 counterexample: the input decoding to the valid JSON object
`cpu_percent: null` makes the extraction raise (`float(None)`), so parsing
does not succeed on every valid JSON object, and failing with `ParseError` on
non-structured input is not the only failure mode. -/
theorem c4_counterexample_null_cpu :
    jsonParse c4BadRaw = some (.obj [("cpu_percent", .null)]) ∧
    (collectLinux c4BadRaw).2 = false := by
  have h : jsonParse c4BadRaw = some (.obj [("cpu_percent", .null)]) :=
    jsonParse_jsonEncode (.obj [("cpu_percent", .null)])
  refine ⟨h, ?_⟩
  unfold collectLinux
  simp only [h]
  rfl

/-- C4 (amended): extraction succeeds exactly on inputs decoding to a JSON
object whose present fields coerce: when every metric lookup coerces
numerically and the `extras.net` access is well-typed, the whole extraction
succeeds, each extracted value is the permissively coerced lookup, and every
missing field defaults to zero/empty; the input not being valid structured
data is only one of the failure modes (a present but uncoercible field also
fails, as the counterexample shows). -/
theorem c4_amended_extraction (raw : String) (kvs : List (String × Json))
    (hparse : jsonParse raw = some (.obj kvs))
    (hcpu : (dictGetD (.obj kvs) "cpu_percent" (.num 0) >>= pyFloat).isSome = true)
    (hmt : (dictGetD (.obj kvs) "mem_total_bytes" (.num 0) >>= pyInt).isSome = true)
    (hma : (dictGetD (.obj kvs) "mem_available_bytes" (.num 0) >>= pyInt).isSome = true)
    (hup : (dictGetD (.obj kvs) "uptime_seconds" (.num 0) >>= pyInt).isSome = true)
    (hrx : (rxOf kvs).isSome = true) (htx : (txOf kvs).isSome = true) :
    (collectLinux raw).2 = true ∧
    (collectLinux raw).1.cpu = (dictGetD (.obj kvs) "cpu_percent" (.num 0) >>= pyFloat) ∧
    (collectLinux raw).1.mem_total
      = (dictGetD (.obj kvs) "mem_total_bytes" (.num 0) >>= pyInt) ∧
    (collectLinux raw).1.mem_avail
      = (dictGetD (.obj kvs) "mem_available_bytes" (.num 0) >>= pyInt) ∧
    (collectLinux raw).1.uptime
      = (dictGetD (.obj kvs) "uptime_seconds" (.num 0) >>= pyInt) ∧
    (collectLinux raw).1.disks = (dlookup "disks" kvs).getD (.arr []) ∧
    rxOf kvs = some ((collectLinux raw).1.net_rx) ∧
    txOf kvs = some ((collectLinux raw).1.net_tx) ∧
    (collectLinux raw).1.extras_payload = some (jsonEncode (extrasOf kvs)) ∧
    (dlookup "cpu_percent" kvs = none → (collectLinux raw).1.cpu = some 0) ∧
    (dlookup "mem_total_bytes" kvs = none → (collectLinux raw).1.mem_total = some 0) ∧
    (dlookup "mem_available_bytes" kvs = none →
      (collectLinux raw).1.mem_avail = some 0) ∧
    (dlookup "uptime_seconds" kvs = none → (collectLinux raw).1.uptime = some 0) ∧
    (dlookup "disks" kvs = none → (collectLinux raw).1.disks = .arr []) := by
  obtain ⟨c, hc⟩ := Option.isSome_iff_exists.mp hcpu
  obtain ⟨mt, hmt2⟩ := Option.isSome_iff_exists.mp hmt
  obtain ⟨ma, hma2⟩ := Option.isSome_iff_exists.mp hma
  obtain ⟨up, hup2⟩ := Option.isSome_iff_exists.mp hup
  obtain ⟨rx, hrx2⟩ := Option.isSome_iff_exists.mp hrx
  obtain ⟨tx, htx2⟩ := Option.isSome_iff_exists.mp htx
  obtain ⟨net, hnet⟩ : ∃ net, netOf kvs = some net := by
    cases hn : netOf kvs with
    | none => rw [rxOf, hn] at hrx2; simp at hrx2
    | some net => exact ⟨net, rfl⟩
  have hnet2 : dictGetD (extrasOf kvs) "net" (.obj []) = some net := hnet
  have hrx3 : (if pyTruthy net
      then (dictGetD net "total_rx_kbps" (.num 0) >>= pyFloat).map some
      else some none) = some rx := by
    rw [rxOf, hnet] at hrx2
    simpa using hrx2
  have htx3 : (if pyTruthy net
      then (dictGetD net "total_tx_kbps" (.num 0) >>= pyFloat).map some
      else some none) = some tx := by
    rw [txOf, hnet] at htx2
    simpa using htx2
  have hextras : dictGetD (.obj kvs) "extras" (.obj []) = some (extrasOf kvs) := rfl
  have hdisks : dictGetD (.obj kvs) "disks" (.arr [])
      = some ((dlookup "disks" kvs).getD (.arr [])) := rfl
  have hcv : collectLinux raw =
      ({ cpu := some c, mem_total := some mt, mem_avail := some ma,
         uptime := some up, net_rx := rx, net_tx := tx,
         disks := (dlookup "disks" kvs).getD (.arr []),
         extras_payload := some (jsonEncode (extrasOf kvs)) }, true) := by
    unfold collectLinux
    simp only [hparse, step, hc, hmt2, hma2, hup2, hdisks, hextras, hnet2, hrx3, htx3]
  refine ⟨by rw [hcv], ?_, ?_, ?_, ?_, ?_, ?_, ?_, ?_, ?_, ?_, ?_, ?_, ?_⟩
  · rw [hcv, hc]
  · rw [hcv, hmt2]
  · rw [hcv, hma2]
  · rw [hcv, hup2]
  · rw [hcv]
  · rw [hcv, hrx2]
  · rw [hcv, htx2]
  · rw [hcv]
  · intro hnone
    have h0 : dictGetD (.obj kvs) "cpu_percent" (.num 0) >>= pyFloat = some 0 := by
      simp [dictGetD, hnone, pyFloat]
    rw [hcv]
    have := hc.symm.trans h0
    simpa using this
  · intro hnone
    have h0 : dictGetD (.obj kvs) "mem_total_bytes" (.num 0) >>= pyInt = some 0 := by
      simp [dictGetD, hnone, pyInt]
    rw [hcv]
    have := hmt2.symm.trans h0
    simpa using this
  · intro hnone
    have h0 : dictGetD (.obj kvs) "mem_available_bytes" (.num 0) >>= pyInt = some 0 := by
      simp [dictGetD, hnone, pyInt]
    rw [hcv]
    have := hma2.symm.trans h0
    simpa using this
  · intro hnone
    have h0 : dictGetD (.obj kvs) "uptime_seconds" (.num 0) >>= pyInt = some 0 := by
      simp [dictGetD, hnone, pyInt]
    rw [hcv]
    have := hup2.symm.trans h0
    simpa using this
  · intro hnone
    rw [hcv]
    simp [hnone]

def c4EmptyRaw : String := jsonEncode (.obj [])

/-- C4 witness: the empty JSON object extracts successfully with every field
defaulted to zero/empty. -/
theorem c4_amended_witness :
    (collectLinux c4EmptyRaw).2 = true ∧
    (collectLinux c4EmptyRaw).1.cpu = some 0 ∧
    (collectLinux c4EmptyRaw).1.disks = .arr [] ∧
    (collectLinux c4EmptyRaw).1.extras_payload = some (jsonEncode (.obj [])) := by
  have h := c4_amended_extraction c4EmptyRaw [] (jsonParse_jsonEncode (.obj []))
    (by decide) (by decide) (by decide) (by decide) (by decide) (by decide)
  exact ⟨h.1, (h.2.2.2.2.2.2.2.2.2.1) rfl, (h.2.2.2.2.2.2.2.2.2.2.2.2.2) rfl,
    h.2.2.2.2.2.2.2.2.1⟩

end Agentless

namespace Agentless

/-- When the latest extras payload of a host decodes, `api_latest` returns the
latest sample, the decoded payload, and the maximal-ts disk rows. -/
theorem api_latest_extras_eq (st2 : Store) (hid : Nat) (e : ExtrasRow)
    (hlast : lastExtrasRow (hostExtras st2 hid) = some e)
    (hne : e.payload ≠ "") (E : Json) (hparse : jsonParse e.payload = some E) :
    api_latest st2 hid
      = some (lastSampleRow (hostSamples st2 hid), E, latestDisks st2 hid) := by
  simp only [api_latest, hlast, Option.map_some']
  rw [if_pos hne, hparse]
  rfl

/-- C8: an extras object serialized by a successful collection's commit (its
payload is `json.dumps` of the extras object) and decoded back through the
latest query equals the original object. -/
theorem c8_extras_roundtrip (E : Json) (st : Store) (hid : Nat) (ts : Int)
    (lat : Option Int) (v : CollectVars)
    (hpay : v.extras_payload = some (jsonEncode E))
    (hdisks : disksOkB v.disks = true)
    (hold : ∀ e ∈ st.extras, e.host_id = hid → e.ts ≤ ts) :
    ∃ st', commitCycle st hid ts lat v = some st' ∧
      ∃ last disks, api_latest st' hid = some (last, E, disks) := by
  obtain ⟨drows, hcommit⟩ := commitCycle_of_disksOk st hid ts lat v hdisks
  simp only [hpay] at hcommit
  rw [if_pos (jsonEncode_ne_empty E)] at hcommit
  refine ⟨_, hcommit, ?_⟩
  refine ⟨_, _,
    api_latest_extras_eq _ hid (⟨hid, ts, jsonEncode E⟩ : ExtrasRow) ?_
      (jsonEncode_ne_empty E) E (jsonParse_jsonEncode E)⟩
  show lastExtrasRow ((st.extras ++ [(⟨hid, ts, jsonEncode E⟩ : ExtrasRow)]).filter
    (fun e => e.host_id == hid)) = some (⟨hid, ts, jsonEncode E⟩ : ExtrasRow)
  have hfe : (st.extras ++ [(⟨hid, ts, jsonEncode E⟩ : ExtrasRow)]).filter
      (fun e => e.host_id == hid)
      = st.extras.filter (fun e => e.host_id == hid) ++ [⟨hid, ts, jsonEncode E⟩] := by
    rw [List.filter_append]
    simp
  rw [hfe]
  exact lastExtrasRow_append_max _ _ (fun x hx => by
    rw [List.mem_filter] at hx
    exact hold x hx.1 (by simpa using hx.2))

def c8Extras : Json := .obj [("net", .obj [("total_rx_kbps", .num 1)])]

def c8Vars : CollectVars := { initVars with extras_payload := some (jsonEncode c8Extras) }

/-- C8 witness: a concrete commit of a serialized extras object decodes back
to the same object through the latest query. -/
theorem c8_extras_roundtrip_witness :
    ∃ st', commitCycle emptyStore 0 1000 none c8Vars = some st' ∧
      ∃ last disks, api_latest st' 0 = some (last, c8Extras, disks) :=
  c8_extras_roundtrip c8Extras emptyStore 0 1000 none c8Vars rfl (by decide)
    (by intro e he _; exact absurd he (List.not_mem_nil e))

end Agentless

namespace Agentless

/-- A commit with an empty decoded disks list and a nonempty extras payload
appends the sample row and one extras row. -/
theorem commitCycle_noDisks_somePayload (st : Store) (hid : Nat) (ts : Int)
    (lat : Option Int) (v : CollectVars) (p : String) (hd : v.disks = .arr [])
    (hp : v.extras_payload = some p) (hne : p ≠ "") :
    commitCycle st hid ts lat v = some { st with
      samples := st.samples ++
        [⟨hid, ts, v.cpu, v.mem_total, v.mem_avail, v.uptime, lat,
          v.net_rx, v.net_tx⟩],
      extras := st.extras ++ [⟨hid, ts, p⟩] } := by
  unfold commitCycle
  rw [hd, hp]
  simp [pyTruthy, hne]

/-- Evaluation of the `try` block on a decoded object whose extractions all
succeed with the given values. -/
theorem collectLinux_eval (raw : String) (kvs : List (String × Json))
    (c mt ma up : Int) (rx tx : Option Int) (net : Json)
    (hparse : jsonParse raw = some (.obj kvs))
    (hc : (dictGetD (.obj kvs) "cpu_percent" (.num 0) >>= pyFloat) = some c)
    (hmt : (dictGetD (.obj kvs) "mem_total_bytes" (.num 0) >>= pyInt) = some mt)
    (hma : (dictGetD (.obj kvs) "mem_available_bytes" (.num 0) >>= pyInt) = some ma)
    (hup : (dictGetD (.obj kvs) "uptime_seconds" (.num 0) >>= pyInt) = some up)
    (hnet : dictGetD (extrasOf kvs) "net" (.obj []) = some net)
    (hrx : (if pyTruthy net
        then (dictGetD net "total_rx_kbps" (.num 0) >>= pyFloat).map some
        else some none) = some rx)
    (htx : (if pyTruthy net
        then (dictGetD net "total_tx_kbps" (.num 0) >>= pyFloat).map some
        else some none) = some tx) :
    collectLinux raw =
      ({ cpu := some c, mem_total := some mt, mem_avail := some ma,
         uptime := some up, net_rx := rx, net_tx := tx,
         disks := (dlookup "disks" kvs).getD (.arr []),
         extras_payload := some (jsonEncode (extrasOf kvs)) }, true) := by
  have hextras : dictGetD (.obj kvs) "extras" (.obj []) = some (extrasOf kvs) := rfl
  have hdisks : dictGetD (.obj kvs) "disks" (.arr [])
      = some ((dlookup "disks" kvs).getD (.arr [])) := rfl
  unfold collectLinux
  simp only [hparse, step, hc, hmt, hma, hup, hdisks, hextras, hnet, hrx, htx]

def c10Extras : Json :=
  .obj [("net", .obj [("total_rx_kbps", .num 1), ("total_tx_kbps", .num 2)])]

def c10Fields : List (String × Json) :=
  [("cpu_percent", .num 3), ("mem_total_bytes", .num 100),
    ("mem_available_bytes", .num 40), ("uptime_seconds", .num 7),
    ("disks", .arr []), ("extras", c10Extras)]

def c10Payload : Json := .obj c10Fields

def c10Host : Host :=
  ⟨"web-1", "10.0.0.1", "linux", some ⟨"root", some "pw", none, 22⟩, none⟩

def c10Store : Store := registerHost emptyStore "web-1" "10.0.0.1" "linux"

def c10Env1 : PollEnv := ⟨1000, some 5, fun _ => .streams (jsonEncode c10Payload) ""⟩

def c10Env2 : PollEnv := ⟨1030, none, fun _ => .raised "host down"⟩

def c10Vars : CollectVars :=
  ⟨some 3, some 100, some 40, some 7, some 1, some 2, .arr [],
    some (jsonEncode c10Extras)⟩

def c10Store1 : Store :=
  { c10Store with
    samples := [⟨0, 1000, some 3, some 100, some 40, some 7, some 5, some 1, some 2⟩],
    extras := [⟨0, 1000, jsonEncode c10Extras⟩] }

def c10Store2 : Store :=
  { c10Store1 with
    samples := c10Store1.samples ++
      [⟨0, 1030, none, none, none, none, none, none, none⟩] }

theorem c10_collect_eval : collectLinux (jsonEncode c10Payload) = (c10Vars, true) := by
  have h1 := collectLinux_eval (jsonEncode c10Payload) c10Fields 3 100 40 7
    (some 1) (some 2)
    (.obj [("total_rx_kbps", .num 1), ("total_tx_kbps", .num 2)])
    (jsonParse_jsonEncode c10Payload) rfl rfl rfl rfl rfl rfl rfl
  rw [h1, show extrasOf c10Fields = c10Extras from rfl,
    show (dlookup "disks" c10Fields).getD (.arr []) = .arr [] from rfl]
  rfl

theorem pollVars_ok_run (host : Host) (env : PollEnv) (raw : String)
    (v : CollectVars) (b : Bool) (hos : host.os = "linux")
    (hssh : host.ssh.isSome = true)
    (hrun : (SSHClient.run env.attempts).1 = .ok raw)
    (hcv : collectLinux raw = (v, b)) :
    pollVars host env = v := by
  unfold pollVars
  rw [if_pos ⟨hos, hssh⟩]
  simp only [hrun, hcv]

theorem poll_once_eval (st : Store) (host : Host) (env : PollEnv) (hid : Nat)
    (v : CollectVars) (st' : Store)
    (hwin : ¬(host.os = "windows" ∧ host.winrm.isSome = true))
    (hhid : hostIdByName st host.name = some hid)
    (hpv : pollVars host env = v)
    (hcm : commitCycle st hid env.ts env.latency v = some st') :
    poll_once st host env = some st' := by
  unfold poll_once
  rw [if_neg hwin]
  simp only [hhid, hpv, hcm]

theorem c10_pollVars_eval : pollVars c10Host c10Env1 = c10Vars :=
  pollVars_ok_run c10Host c10Env1 (jsonEncode c10Payload) c10Vars true
    rfl rfl rfl c10_collect_eval

theorem c10_commit_eval : commitCycle c10Store 0 c10Env1.ts c10Env1.latency c10Vars
    = some c10Store1 := by
  rw [commitCycle_noDisks_somePayload c10Store 0 c10Env1.ts c10Env1.latency c10Vars
    (jsonEncode c10Extras) rfl rfl (jsonEncode_ne_empty c10Extras)]
  rfl

theorem c10_cycle1 : poll_once c10Store c10Host c10Env1 = some c10Store1 :=
  poll_once_eval c10Store c10Host c10Env1 0 c10Vars c10Store1 (by decide) rfl
    c10_pollVars_eval c10_commit_eval

theorem c10_cycle2 : poll_once c10Store1 c10Host c10Env2 = some c10Store2 := rfl

/-- C10: the components of the latest query are independent per-table maxima,
not one cycle's snapshot: after a reachable two-cycle run (a successful
collection at ts 1000, then a failed one at ts 1030), the extras row the
latest query uses is strictly older than the sample row it returns. -/
theorem c10_latest_components_independent :
    ∃ st1 st2 : Store,
      poll_once c10Store c10Host c10Env1 = some st1 ∧
      poll_once st1 c10Host c10Env2 = some st2 ∧
      ∃ (e : ExtrasRow) (s : SampleRow),
        lastExtrasRow (hostExtras st2 0) = some e ∧
        lastSampleRow (hostSamples st2 0) = some s ∧ e.ts < s.ts :=
  ⟨c10Store1, c10Store2, c10_cycle1, c10_cycle2,
    ⟨0, 1000, jsonEncode c10Extras⟩,
    ⟨0, 1030, none, none, none, none, none, none, none⟩, rfl, rfl, by decide⟩

end Agentless

namespace Agentless

def c5Store : Store :=
  ⟨[], 0,
    [⟨0, 50, none, none, none, none, none, none, none⟩,
      ⟨0, 200, none, none, none, none, none, none, none⟩],
    [⟨0, 200, "sda", 1, 2, 3, "/"⟩], []⟩

/-- C5 witness: with `now = 300` and a 2-minute lookback (cutoff 180), the
concrete sample at ts 200 is returned by the series query. -/
theorem c5_series_witness :
    (⟨0, 200, none, none, none, none, none, none, none⟩ : SampleRow)
      ∈ (api_series c5Store 0 2 300).1 :=
  (c5_series_cutoff_exact_sorted c5Store 0 2 300).2.2.2.1
    ⟨0, 200, none, none, none, none, none, none, none⟩ (by decide) rfl (by decide)

end Agentless
